import Mathlib

/-!
Verification development for the `fb-messenger-bot-api` messaging client
(`src/src/client/FacebookMessagingAPIClient.ts`, which contains both the
`FacebookMessagingAPIClient` facade and the `Utils` request utility).

The development has two layers:

* a pure value model of the JSON payloads each client method builds and of
  the promise/callback dispatch in `Utils.sendMessage`;
* a small mutable-heap model (objects at numeric addresses) used to settle
  the aliasing/frame claims about `Utils.requestOptions`, the shared static
  base options that `getRequestOptions` deep-copies via
  `JSON.parse(JSON.stringify(...))`.
-/

set_option autoImplicit false

/-- Attachment type enum. The `enums` module is imported by the source file but
is not part of the sources given; only the five enum member names that the
client file uses appear here, and their (unknown) string values are kept
symbolic as a dedicated JSON leaf `Json.atype`. -/
inductive ATTACHMENT_TYPE where
  | IMAGE
  | AUDIO
  | VIDEO
  | FILE
  | TEMPLATE
deriving DecidableEq, Repr

/-- JSON-like JavaScript values, used both for request payloads the client
builds and for response bodies. `atype` is a leaf holding a symbolic
`ATTACHMENT_TYPE` enum value (see `ATTACHMENT_TYPE`). -/
inductive Json where
  | null
  | bool (b : Bool)
  | num (n : Int)
  | str (s : String)
  | arr (xs : List Json)
  | obj (fields : List (String × Json))
  | atype (t : ATTACHMENT_TYPE)

/-- Property read `j.k` on a JavaScript value: a field of a plain object, and
`undefined` (modelled as `none`) on everything else (in particular on strings,
numbers and arrays, which have no `error` / `message` properties). -/
def Json.getField (j : Json) (k : String) : Option Json :=
  match j with
  | .obj fields => (fields.find? (fun p => p.1 == k)).map (fun p => p.2)
  | _ => none

/-- JavaScript truthiness of a possibly-undefined value (`none` = `undefined`). -/
def truthy (v : Option Json) : Bool :=
  match v with
  | none => false
  | some .null => false
  | some (.bool b) => b
  | some (.num n) => !(n == 0)
  | some (.str s) => !(s == "")
  | some (.arr _) => true
  | some (.obj _) => true
  | some (.atype _) => true

/-- JavaScript object-literal / spread key update: `{ ...o, k: v }` replaces the
value of `k` in place when the key already occurs, else appends it. -/
def objSet (fields : List (String × Json)) (k : String) (v : Json) :
    List (String × Json) :=
  if fields.any (fun p => p.1 == k) then
    fields.map (fun p => if p.1 == k then (k, v) else p)
  else
    fields ++ [(k, v)]

/-- Response body handed to the `request` callback in `Utils.sendMessage`.
With these endpoints the body is either the raw response text (a string) or,
when the request was issued with a `json` body, the already-parsed response
object. A string body is represented by the JSON value its text denotes;
bodies whose text is not valid JSON would make `JSON.parse` throw inside the
promise executor (rejecting with the parse error), a case outside every claim
considered here and therefore not represented. -/
inductive Body where
  | text (j : Json)
  | object (fields : List (String × Json))

/-- Value a promise produced by `Utils.sendMessage` is rejected with: either
the transport error `err`, or a JavaScript value (`bodyObject.error.message`,
which is `undefined` = `none` when the error value has no `message`). -/
inductive RejectVal where
  | transport (e : String)
  | value (v : Option Json)

/-- Settled state of a promise produced by `Utils.sendMessage`.
`resolve none` is a promise fulfilled with `undefined` (`Promise.resolve()`). -/
inductive PResult where
  | resolve (v : Option Json)
  | reject (r : RejectVal)

/-- The `error` property of the body as the callback branch of
`Utils.sendMessage` reads it (`body.error`): a field of an object body,
`undefined` on a string body. -/
def bodyErrorField (body : Body) : Option Json :=
  match body with
  | .text _ => none
  | .object fields => Json.getField (.obj fields) "error"

/-- Promise branch of `Utils.sendMessage` (source lines 310-328): on a
transport error, reject with it; otherwise, when the body is not a non-null,
non-array object, `JSON.parse` it and either reject with
`bodyObject.error.message` (when `bodyObject.error` is truthy) or resolve with
the parsed object; when the body already is an object, resolve with it
directly, without inspecting its `error` field. -/
def sendMessagePromise (err : Option String) (body : Body) : PResult :=
  match err with
  | some e => .reject (.transport e)
  | none =>
    match body with
    | .object fields => .resolve (some (.obj fields))
    | .text j =>
      if truthy (Json.getField j "error") then
        .reject (.value ((Json.getField j "error").bind
          (fun ej => Json.getField ej "message")))
      else
        .resolve (some j)

/-- Arguments the callback branch of `Utils.sendMessage` (source lines
330-335) invokes the callback with. -/
inductive CallbackCall where
  | errOnly (e : String)
  | bodyErr (v : Json)
  | success (body : Body)

/-- Callback branch of `Utils.sendMessage`: `cb(err)` on a transport error,
`cb(body.error)` when that property is truthy, else `cb(null, body)` with the
body passed through as received (never parsed). -/
def sendMessageCallback (err : Option String) (body : Body) : CallbackCall :=
  match err with
  | some e => .errOnly e
  | none =>
    match bodyErrorField body with
    | some v => if truthy (some v) then .bodyErr v else .success body
    | none => .success body

/-- Mode dispatch of `Utils.sendMessage` on `typeof cb !== 'function'`
(`hasCallback = true` means a function was supplied): the promise branch
returns the outcome-reflecting promise and never touches a callback, the
callback branch invokes the callback and returns `Promise.resolve()`
(a promise already fulfilled with `undefined`). -/
def sendMessage (hasCallback : Bool) (err : Option String) (body : Body) :
    PResult × Option CallbackCall :=
  if hasCallback then
    (.resolve none, some (sendMessageCallback err body))
  else
    (sendMessagePromise err body, none)

/-- `RequestData` from `Utils`: the page token plus the optional proxy string;
`proxy = none` models the property being absent (`hasOwnProperty('proxy')`
false). -/
structure RequestData where
  token : String
  proxy : Option String := none
deriving DecidableEq, Repr

/-- List-based string prefix test, modelling `s.indexOf(p) === 0` /
`s.startsWith(p)` on JavaScript strings. -/
def strStarts (s p : String) : Bool :=
  List.isPrefixOf p.data s.data

/-- JavaScript value passed as the `proxyData` argument of
`Utils.getProxyData`. `undefinedArg` is an omitted argument; `nullArg` is an
explicit `null` (falsy, so the `if (proxyData)` guard skips it); `objArg` is a
plain object (`Object.prototype.toString` gives `'[object Object]'`) whose
`hostname`/`port` own-properties are present iff the corresponding component
is `some` (`port` is kept in the string form it is interpolated with);
`otherTruthy` is any truthy value that is not a plain object (array, function,
number, nonempty string, ...), for which the `toString` check fails. -/
inductive ProxyArg where
  | undefinedArg
  | nullArg
  | objArg (hostname : Option String) (port : Option String)
  | otherTruthy
deriving DecidableEq, Repr

/-- `Utils.getProxyData` (source lines 340-355): skip falsy arguments; for a
plain object owning `hostname` and `port`, store
`hostname + ':' + port` when the hostname already starts with `'http'`, else
`'http://' + hostname + ':' + port`; throw on any other truthy argument. -/
def getProxyData (requestData : RequestData) (proxyData : ProxyArg) :
    Except String RequestData :=
  match proxyData with
  | .undefinedArg => .ok requestData
  | .nullArg => .ok requestData
  | .otherTruthy => .error "Invalid Proxy object given, expected hostname and port"
  | .objArg h p =>
    match h, p with
    | some hn, some pt =>
      if strStarts hn "http" then
        .ok { requestData with proxy := some (hn ++ ":" ++ pt) }
      else
        .ok { requestData with proxy := some ("http://" ++ hn ++ ":" ++ pt) }
    | _, _ => .error "Invalid Proxy object given, expected hostname and port"

/-- Whether `getProxyData` threw. -/
def proxyErred (r : Except String RequestData) : Bool :=
  match r with
  | .error _ => true
  | .ok _ => false

/-- The proxy string stored by `getProxyData`, when it returned normally. -/
def proxyOf (r : Except String RequestData) : Option String :=
  match r with
  | .error _ => none
  | .ok rd => rd.proxy

/-- A supplied (non-absent) `proxyData` argument, as the claims phrase it:
anything other than an omitted/`undefined` argument. -/
def suppliedProxyArg (p : ProxyArg) : Bool :=
  match p with
  | .undefinedArg => false
  | _ => true

/-- A truthy `proxyData` argument (what the `if (proxyData)` guard tests). -/
def truthyProxyArg (p : ProxyArg) : Bool :=
  match p with
  | .undefinedArg => false
  | .nullArg => false
  | .objArg _ _ => true
  | .otherTruthy => true

/-- A plain object carrying both a `hostname` and a `port` field. -/
def hasBothFields (p : ProxyArg) : Bool :=
  match p with
  | .objArg (some _) (some _) => true
  | _ => false

/-!
URL-detection regex of `sendUrlOrIdBasedMessage` (source line 217):

  (http(s)?:\/\/.)?(www\.)?[-a-zA-Z0-9@:%._\+~#=]{2,256}\.[a-z]{2,6}\b([-a-zA-Z0-9@:%_\+.~#?&//=]*)

`urlOrId.match(re)` is truthy iff the regex matches somewhere in the string,
so only match existence matters. Every consuming atom of this regex is a
single-character class, which the small matcher below exploits: it computes
the set of possible remainders of the input after a subexpression, threading
the previous character so that the zero-width `\b` can be evaluated.
-/

/-- Regular expressions in which every consuming atom is a one-character
class: literal characters and classes (`cls`), concatenation, optional groups,
Kleene star of a class, bounded repetition of a class, and the zero-width word
boundary `\b`. -/
inductive RE where
  | eps
  | cls (f : Char → Bool)
  | seq (a b : RE)
  | opt (a : RE)
  | starCls (f : Char → Bool)
  | repCls (f : Char → Bool) (lo hi : Nat)
  | wordB

/-- Word character for `\b`: `[A-Za-z0-9_]`. -/
def isWordChar (c : Char) : Bool :=
  (('a' ≤ c && c ≤ 'z') || ('A' ≤ c && c ≤ 'Z') || ('0' ≤ c && c ≤ '9') || c == '_')

/-- Word-character test on the optional character just before / just after a
position (`none` = beginning or end of input). -/
def isWordOpt (c : Option Char) : Bool :=
  match c with
  | none => false
  | some c => isWordChar c

/-- Remainders after matching between `lo` and `hi` further repetitions of the
character class `f`, starting from previous character `p` and input `s`. -/
def repRems (f : Char → Bool) (lo : Nat) (hi : Nat) (p : Option Char)
    (s : List Char) : List (Option Char × List Char) :=
  match hi with
  | 0 => if lo == 0 then [(p, s)] else []
  | hi' + 1 =>
    (if lo == 0 then [(p, s)] else []) ++
      (match s with
       | [] => []
       | c :: rest => if f c then repRems f (lo - 1) hi' (some c) rest else [])

/-- Remainders after matching zero or more repetitions of the character class
`f`. -/
def starRems (f : Char → Bool) (p : Option Char) (s : List Char) :
    List (Option Char × List Char) :=
  (p, s) ::
    (match s with
     | [] => []
     | c :: rest => if f c then starRems f (some c) rest else [])

/-- All possible `(previous character, remaining input)` states after matching
the regex `r` at the current position. -/
def rems (r : RE) (p : Option Char) (s : List Char) :
    List (Option Char × List Char) :=
  match r with
  | .eps => [(p, s)]
  | .cls f =>
    (match s with
     | [] => []
     | c :: rest => if f c then [(some c, rest)] else [])
  | .seq a b => (rems a p s).flatMap (fun q => rems b q.1 q.2)
  | .opt a => rems a p s ++ [(p, s)]
  | .starCls f => starRems f p s
  | .repCls f lo hi => repRems f lo hi p s
  | .wordB => if isWordOpt p != isWordOpt (s.head?) then [(p, s)] else []

/-- Whether `r` matches starting somewhere in `s` (previous character `p` at
the current start position), i.e. whether `String.prototype.match` would
return a non-null result. -/
def searchFrom (r : RE) (p : Option Char) (s : List Char) : Bool :=
  !(rems r p s).isEmpty ||
    (match s with
     | [] => false
     | c :: rest => searchFrom r (some c) rest)

/-- Single literal character as a regex atom. -/
def lit (c : Char) : RE := .cls (fun d => d == c)

/-- Literal character string as a regex. -/
def litSeq (cs : List Char) : RE :=
  match cs with
  | [] => .eps
  | c :: rest => .seq (lit c) (litSeq rest)

/-- The class `[-a-zA-Z0-9@:%._\+~#=]`. -/
def urlBodyChar (c : Char) : Bool :=
  (('a' ≤ c && c ≤ 'z') || ('A' ≤ c && c ≤ 'Z') || ('0' ≤ c && c ≤ '9') ||
    c == '-' || c == '@' || c == ':' || c == '%' || c == '.' || c == '_' ||
    c == '+' || c == '~' || c == '#' || c == '=')

/-- The class `[-a-zA-Z0-9@:%_\+.~#?&//=]` of the trailing group. -/
def urlTailChar (c : Char) : Bool :=
  (('a' ≤ c && c ≤ 'z') || ('A' ≤ c && c ≤ 'Z') || ('0' ≤ c && c ≤ '9') ||
    c == '-' || c == '@' || c == ':' || c == '%' || c == '_' || c == '+' ||
    c == '.' || c == '~' || c == '#' || c == '?' || c == '&' || c == '/' ||
    c == '=')

/-- `[a-z]`. -/
def lowerChar (c : Char) : Bool := 'a' ≤ c && c ≤ 'z'

/-- The regex `.` metacharacter: any character but a line terminator. -/
def dotChar (c : Char) : Bool :=
  !(c == '\n' || c == '\r' || c == ' ' || c == ' ')

/-- AST of the URL-detection regex quoted above. -/
def urlRE : RE :=
  .seq (.opt (.seq (litSeq ['h', 't', 't', 'p'])
                (.seq (.opt (lit 's'))
                  (.seq (litSeq [':', '/', '/']) (.cls dotChar)))))
    (.seq (.opt (litSeq ['w', 'w', 'w', '.']))
      (.seq (.repCls urlBodyChar 2 256)
        (.seq (lit '.')
          (.seq (.repCls lowerChar 2 6)
            (.seq .wordB (.starCls urlTailChar))))))

/-- Truthiness of `urlOrId.match(<url regex>)`. -/
def urlRegexMatches (s : String) : Bool :=
  searchFrom urlRE none s.data

/-!
Pure value model of the request options each client method hands to
`Utils.sendMessage`. `getRequestOptions()` returns a deep copy of the shared
base options, whose observable content is just the current base URL (the
copied `qs` object carries no defined field); the builders below compute the
content of that copy after the method's mutations, with the current base URL
passed in as `baseUrl`. Callbacks are routed as data and represented by an
opaque tag. The aliasing behaviour of the copy itself is handled separately by
the heap model below.
-/

/-- The `qs` query-string object of `RequestOptions`. -/
structure QueryString where
  access_token : Option String := none
  fields : Option String := none
deriving DecidableEq, Repr

/-- Content of a `RequestOptions` object (`Utils.ts` interface): URL, query
string, optional method, proxy and JSON body. -/
structure RequestOptions where
  url : String
  qs : QueryString := {}
  method : Option String := none
  proxy : Option String := none
  json : Option Json := none

/-- `MessageTag` interface: the optional messaging-type/tag pair. -/
structure MessageTag where
  messaging_type : String
  tag : String

/-- Opaque identity of a supplied callback function. -/
def CbTag := Nat
deriving instance DecidableEq for CbTag

/-- Content of the fresh copy `Utils.getRequestOptions()` returns, given the
current base URL: the copied `qs` object has no defined field (the stored
`access_token: undefined` is dropped by `JSON.stringify`) and `method` is
likewise absent. -/
def getRequestOptions (baseUrl : String) : RequestOptions :=
  { url := baseUrl }

/-- `{ ...j, k: v }` on an optional JSON body: spread of an object keeps its
fields and updates `k`; spread of `undefined` yields `{ k: v }`. Bodies are
only ever absent or plain objects at the call sites below. -/
def jsonWith (j : Option Json) (k : String) (v : Json) : Json :=
  match j with
  | some (.obj fields) => .obj (objSet fields k v)
  | _ => .obj [(k, v)]

/-- `generateBasicRequestPayload` (source lines 244-250): fresh options with
`me/messages` appended to the URL, method POST and body
`{ recipient: { id } }`. -/
def generateBasicRequestPayload (baseUrl : String) (id : String) :
    RequestOptions :=
  { url := baseUrl ++ "me/messages"
    method := some "POST"
    json := some (.obj [("recipient", .obj [("id", .str id)])]) }

/-- `sendDisplayMessage` (source lines 229-236): basic payload plus
`message`, then `messaging_type`/`tag` when a tag pair is supplied. -/
def sendDisplayMessageOptions (baseUrl : String) (id : String)
    (payload : Json) (tag : Option MessageTag) : RequestOptions :=
  let options := generateBasicRequestPayload baseUrl id
  let options := { options with json := some (jsonWith options.json "message" payload) }
  match tag with
  | some t =>
    { options with
      json := some (jsonWith (some (jsonWith options.json "messaging_type"
        (.str t.messaging_type))) "tag" (.str t.tag)) }
  | none => options

/-- `sendAction` (source lines 238-242): basic payload plus `sender_action`. -/
def sendActionOptions (baseUrl : String) (id : String) (payload : String) :
    RequestOptions :=
  let options := generateBasicRequestPayload baseUrl id
  { options with json := some (jsonWith options.json "sender_action" (.str payload)) }

/-- `markSeen` (source line 62-64). -/
def markSeenOptions (baseUrl : String) (id : String) : RequestOptions :=
  sendActionOptions baseUrl id "mark_seen"

/-- Second argument of `toggleTyping`: a boolean or a function (callback). -/
inductive BoolOrFn where
  | b (b : Bool)
  | f (tag : CbTag)

/-- JavaScript truthiness of a boolean-or-function value: functions are
truthy. -/
def truthyBF (v : BoolOrFn) : Bool :=
  match v with
  | .b b => b
  | .f _ => true

/-- `toggleAction` (source lines 252-258): `typing_on` when the toggle value
is truthy, else `typing_off`. -/
def toggleAction (baseUrl : String) (id : String) (toggleValue : BoolOrFn)
    (cb : Option CbTag) : RequestOptions × Option CbTag :=
  if truthyBF toggleValue then
    (sendActionOptions baseUrl id "typing_on", cb)
  else
    (sendActionOptions baseUrl id "typing_off", cb)

/-- `toggleTyping` (source lines 74-84): with three arguments, delegate to
`toggleAction` with the second argument cast to boolean; with two, a function
second argument becomes the callback of a `typing_off` action, otherwise the
boolean is toggled. `cb.isSome` models `arguments.length === 3`. -/
def toggleTyping (baseUrl : String) (id : String) (toggle : BoolOrFn)
    (cb : Option CbTag) : RequestOptions × Option CbTag :=
  match cb with
  | some c => toggleAction baseUrl id toggle (some c)
  | none =>
    match toggle with
    | .f t => (sendActionOptions baseUrl id "typing_off", some t)
    | .b b => toggleAction baseUrl id (.b b) none

/-- `sendAttachmentMessage` (source lines 225-227). -/
def sendAttachmentMessageOptions (baseUrl : String) (id : String)
    (payload : Json) (tag : Option MessageTag) : RequestOptions :=
  sendDisplayMessageOptions baseUrl id (.obj [("attachment", payload)]) tag

/-- `sendUrlOrIdBasedMessage` (source lines 215-223): URL-looking strings
become a reusable `url` payload, any other string an `attachment_id`
payload. -/
def sendUrlOrIdBasedMessageOptions (baseUrl : String) (id : String)
    (type : ATTACHMENT_TYPE) (urlOrId : String) (tag : Option MessageTag) :
    RequestOptions :=
  let payload :=
    if urlRegexMatches urlOrId then
      Json.obj [("type", .atype type),
        ("payload", .obj [("is_reusable", .bool true), ("url", .str urlOrId)])]
    else
      Json.obj [("type", .atype type),
        ("payload", .obj [("attachment_id", .str urlOrId)])]
  sendAttachmentMessageOptions baseUrl id payload tag

/-- `sendTextMessage` (source lines 94-96). -/
def sendTextMessageOptions (baseUrl : String) (id : String) (text : String)
    (tag : Option MessageTag) : RequestOptions :=
  sendDisplayMessageOptions baseUrl id (.obj [("text", .str text)]) tag

/-- `sendImageMessage` (source lines 106-108). -/
def sendImageMessageOptions (baseUrl : String) (id : String)
    (imageUrlOrId : String) (tag : Option MessageTag) : RequestOptions :=
  sendUrlOrIdBasedMessageOptions baseUrl id .IMAGE imageUrlOrId tag

/-- `sendAudioMessage` (source lines 118-120). -/
def sendAudioMessageOptions (baseUrl : String) (id : String)
    (audioUrlOrId : String) (tag : Option MessageTag) : RequestOptions :=
  sendUrlOrIdBasedMessageOptions baseUrl id ATTACHMENT_TYPE.AUDIO audioUrlOrId tag

/-- `sendVideoMessage` (source lines 130-132). -/
def sendVideoMessageOptions (baseUrl : String) (id : String)
    (videoUrlOrId : String) (tag : Option MessageTag) : RequestOptions :=
  sendUrlOrIdBasedMessageOptions baseUrl id .VIDEO videoUrlOrId tag

/-- `sendFileMessage` (source lines 142-144). -/
def sendFileMessageOptions (baseUrl : String) (id : String)
    (fileUrlOrId : String) (tag : Option MessageTag) : RequestOptions :=
  sendUrlOrIdBasedMessageOptions baseUrl id .FILE fileUrlOrId tag

/-- `sendButtonsMessage` (source lines 155-158); the `IButton[]` array is an
opaque caller-supplied JSON value. -/
def sendButtonsMessageOptions (baseUrl : String) (id : String) (text : String)
    (buttons : Json) (tag : Option MessageTag) : RequestOptions :=
  sendAttachmentMessageOptions baseUrl id
    (.obj [("type", .atype .TEMPLATE),
      ("payload", .obj [("text", .str text), ("buttons", buttons),
        ("template_type", .str "button")])]) tag

/-- `sendTemplateMessage` (source lines 168-171); the `IMessageTemplate`
payload is an opaque caller-supplied JSON value. -/
def sendTemplateMessageOptions (baseUrl : String) (id : String)
    (templatePayload : Json) (tag : Option MessageTag) : RequestOptions :=
  sendAttachmentMessageOptions baseUrl id
    (.obj [("type", .atype .TEMPLATE), ("payload", templatePayload)]) tag

/-- `sendQuickReplyMessage` (source lines 182-190): a string first argument
gives a text payload, an attachment payload object is passed through; the
quick-reply array is an opaque caller-supplied JSON value. -/
def sendQuickReplyMessageOptions (baseUrl : String) (id : String)
    (textOrAttachment : String ⊕ Json) (quickReplies : Json)
    (tag : Option MessageTag) : RequestOptions :=
  match textOrAttachment with
  | .inl text =>
    sendDisplayMessageOptions baseUrl id
      (.obj [("text", .str text), ("quick_replies", quickReplies)]) tag
  | .inr attachment =>
    sendDisplayMessageOptions baseUrl id
      (.obj [("attachment", attachment), ("quick_replies", quickReplies)]) tag

/-- `getUserProfile` (source lines 200-213): GET request to the base URL plus
the user id, with a comma-joined `fields` query parameter defaulting to
`first_name` when no array is supplied (`none` models a non-array
argument). -/
def getUserProfileOptions (baseUrl : String) (id : String)
    (fieldsArray : Option (List String)) : RequestOptions :=
  let fields :=
    match fieldsArray with
    | none => "first_name"
    | some l => String.intercalate "," l
  { url := baseUrl ++ id
    qs := { fields := some fields }
    method := some "GET" }

/-- Token/proxy attachment at the top of `Utils.sendMessage` (source lines
303-308): the copy's `access_token` is set and, when the request data owns a
proxy, its `proxy` field as well. -/
def sendMessageAttach (options : RequestOptions) (requestData : RequestData) :
    RequestOptions :=
  let options := { options with qs := { options.qs with access_token := some requestData.token } }
  match requestData.proxy with
  | some p => { options with proxy := some p }
  | none => options

/-- Field `k` of the JSON body of built request options. -/
def jsonField (o : RequestOptions) (k : String) : Option Json :=
  o.json.bind (fun j => Json.getField j k)

/-!
Heap model. JavaScript objects live at numeric addresses in an append-only
allocated heap; object fields hold flat values (`HVal`), where `HVal.ref` is a
reference to another heap object. This is the layer at which
`Utils.requestOptions` (the shared static base options), the
`JSON.parse(JSON.stringify(...))` deep copy of `getRequestOptions`, and the
field assignments of `sendMessage` and the client methods are modelled, so
that the frame claims (mutation of a copy never affects the base options or
another copy) are actual statements about stores.
-/

/-- Field value of a heap object: `undefined`, a string, a boolean, a
reference to another heap object, or a symbolic attachment-type enum value. -/
inductive HVal where
  | undef
  | str (s : String)
  | boolV (b : Bool)
  | ref (a : Nat)
  | atypeV (t : ATTACHMENT_TYPE)
deriving DecidableEq, Repr

/-- A heap object: its fields in insertion order. -/
abbrev HObj := List (String × HVal)

/-- The heap: allocated objects by address, in allocation order. -/
abbrev Heap := List (Nat × HObj)

/-- Object stored at address `a` (addresses are unique, so the first entry is
the object). -/
def lookupH (h : Heap) (a : Nat) : Option HObj :=
  match h with
  | [] => none
  | e :: rest => if e.1 == a then some e.2 else lookupH rest a

/-- Field read `o.k` (`undefined` when the field is missing). -/
def getK (o : HObj) (k : String) : HVal :=
  match o with
  | [] => .undef
  | e :: rest => if e.1 == k then e.2 else getK rest k

/-- Field write `o.k = v`: update in place when present, else append (keys are
unique within an object, as in JavaScript). -/
def setK (o : HObj) (k : String) (v : HVal) : HObj :=
  match o with
  | [] => [(k, v)]
  | e :: rest => if e.1 == k then (k, v) :: rest else e :: setK rest k v

/-- Heap after the field write `(at address a).k = v`. -/
def setFieldH (h : Heap) (a : Nat) (k : String) (v : HVal) : Heap :=
  match h with
  | [] => []
  | e :: rest =>
    if e.1 == a then (e.1, setK e.2 k v) :: rest else e :: setFieldH rest a k v

/-- State of the `Utils` class: the heap, the next fresh address, and the
address of the static `Utils.requestOptions` object. -/
structure UtilsState where
  heap : Heap
  next : Nat
  base : Nat
deriving DecidableEq, Repr

/-- Allocation of a fresh object. -/
def allocH (s : UtilsState) (o : HObj) : HVal × UtilsState :=
  (.ref s.next, ⟨s.heap ++ [(s.next, o)], s.next + 1, s.base⟩)

/-- `JSON.stringify` image of a primitive field value: `undefined` fields are
dropped (`none`), references are handled separately by `copyFieldsH`, other
values serialize to themselves. -/
def copyPrim (v : HVal) : Option HVal :=
  match v with
  | .undef => none
  | .ref _ => none
  | v => some v

/-- `JSON.parse ∘ JSON.stringify` image of an object all of whose fields are
primitives: `undefined` fields disappear, the rest survive unchanged. Fails on
a nested reference (the base options object never nests deeper than its `qs`
child, so the depth-two copy in `copyFieldsH` covers every state the source
can reach). -/
def copyFlat (o : HObj) : Option HObj :=
  List.foldr
    (fun e acc =>
      acc.bind (fun rest =>
        match e.2 with
        | .undef => some rest
        | .ref _ => none
        | v => some ((e.1, v) :: rest)))
    (some []) o

/-- Copy pass of `JSON.parse(JSON.stringify(...))` over the fields of the base
options object: primitive fields are copied (dropping `undefined` ones) and
each referenced child object is copied flat into a freshly allocated object. -/
def copyFieldsH (s : UtilsState) : HObj → Option (HObj × UtilsState)
  | [] => some ([], s)
  | (k, v) :: rest =>
    match v with
    | .undef => copyFieldsH s rest
    | .ref a =>
      (lookupH s.heap a).bind (fun child =>
        (copyFlat child).bind (fun flat =>
          let rs := allocH s flat
          (copyFieldsH rs.2 rest).map (fun p => ((k, rs.1) :: p.1, p.2))))
    | .str s0 =>
      (copyFieldsH s rest).map (fun p => ((k, .str s0) :: p.1, p.2))
    | .boolV b =>
      (copyFieldsH s rest).map (fun p => ((k, .boolV b) :: p.1, p.2))
    | .atypeV t =>
      (copyFieldsH s rest).map (fun p => ((k, .atypeV t) :: p.1, p.2))

/-- `Utils.getRequestOptions` (source lines 299-301):
`JSON.parse(JSON.stringify(Utils.requestOptions))` — a structurally
independent deep copy of the base options, allocated at fresh addresses
(children first, then the root). -/
def getRequestOptionsH (s : UtilsState) : Option (HVal × UtilsState) :=
  (lookupH s.heap s.base).bind (fun root =>
    (copyFieldsH s root).map (fun p =>
      let rs := allocH p.2 p.1
      (rs.1, rs.2)))

/-- URL of the Facebook graph API for a given version string. -/
def apiUrl (version : String) : String :=
  "https://graph.facebook.com/v" ++ version ++ "/"

/-- `Utils.setAPIVersion` (source lines 295-297): overwrite the `url` field of
the shared static base options object. -/
def setAPIVersionH (version : String) (s : UtilsState) : UtilsState :=
  { s with heap := setFieldH s.heap s.base "url" (.str (apiUrl version)) }

/-- Heap effect of `Utils.sendMessage` (source lines 303-308) on the options
object it receives: write the token into `options.qs.access_token` and, when
the request data owns a proxy, write `options.proxy`. -/
def sendMessageH (s : UtilsState) (options : HVal) (rd : RequestData) :
    Option UtilsState :=
  match options with
  | .ref r =>
    (lookupH s.heap r).bind (fun ro =>
      match getK ro "qs" with
      | .ref qaddr =>
        let h1 := setFieldH s.heap qaddr "access_token" (.str rd.token)
        let h2 :=
          match rd.proxy with
          | some p => setFieldH h1 r "proxy" (.str p)
          | none => h1
        some { s with heap := h2 }
      | _ => none)
  | _ => none

/-- Heap effect of `generateBasicRequestPayload` (source lines 244-250):
deep-copy the base options, extend the copy's URL, set the method, allocate
`{ recipient: { id } }` and hang it on the copy's `json` field. Returns the
address of the copy. -/
def generateBasicRequestPayloadH (s : UtilsState) (id : String) :
    Option (Nat × UtilsState) :=
  (getRequestOptionsH s).bind (fun rs =>
    match rs.1 with
    | .ref a =>
      (lookupH rs.2.heap a).bind (fun ro =>
        match getK ro "url" with
        | .str u =>
          let h1 := setFieldH rs.2.heap a "url" (.str (u ++ "me/messages"))
          let h2 := setFieldH h1 a "method" (.str "POST")
          let s2 : UtilsState := { rs.2 with heap := h2 }
          let inner := allocH s2 [("id", .str id)]
          let outer := allocH inner.2 [("recipient", inner.1)]
          some (a, { outer.2 with heap := setFieldH outer.2.heap a "json" outer.1 })
        | _ => none)
    | _ => none)

/-- Heap effect of `options.json = { ...options.json, k₁: v₁, ... }`: read the
current body object, build the spread copy with the extra fields as a fresh
object, and point `json` at it. -/
def mergeJsonFieldH (s : UtilsState) (a : Nat) (kvs : List (String × HVal)) :
    Option UtilsState :=
  (lookupH s.heap a).bind (fun ro =>
    match getK ro "json" with
    | .ref j =>
      (lookupH s.heap j).bind (fun jo =>
        let merged := List.foldl (fun o kv => setK o kv.1 kv.2) jo kvs
        let rs := allocH s merged
        some { rs.2 with heap := setFieldH rs.2.heap a "json" rs.1 })
    | _ => none)

/-- Heap effect of `sendAction` (source lines 238-242). -/
def sendActionH (s : UtilsState) (id : String) (payload : String)
    (rd : RequestData) : Option UtilsState :=
  (generateBasicRequestPayloadH s id).bind (fun p =>
    (mergeJsonFieldH p.2 p.1 [("sender_action", .str payload)]).bind (fun s2 =>
      sendMessageH s2 (.ref p.1) rd))

/-- Heap effect of `sendDisplayMessage` (source lines 229-236); `payload` is
the (already-evaluated) message payload value. -/
def sendDisplayMessageH (s : UtilsState) (id : String) (payload : HVal)
    (tag : Option MessageTag) (rd : RequestData) : Option UtilsState :=
  (generateBasicRequestPayloadH s id).bind (fun p =>
    (mergeJsonFieldH p.2 p.1 [("message", payload)]).bind (fun s2 =>
      (match tag with
       | some t =>
         mergeJsonFieldH s2 p.1
           [("messaging_type", .str t.messaging_type), ("tag", .str t.tag)]
       | none => some s2).bind (fun s3 =>
        sendMessageH s3 (.ref p.1) rd)))

/-- Heap effect of `getUserProfile` (source lines 200-213). -/
def getUserProfileH (s : UtilsState) (id : String)
    (fieldsArray : Option (List String)) (rd : RequestData) :
    Option UtilsState :=
  (getRequestOptionsH s).bind (fun rs =>
    match rs.1 with
    | .ref a =>
      (lookupH rs.2.heap a).bind (fun ro =>
        match getK ro "url" with
        | .str u =>
          let h1 := setFieldH rs.2.heap a "url" (.str (u ++ id))
          let fields :=
            match fieldsArray with
            | none => "first_name"
            | some l => String.intercalate "," l
          match getK ro "qs" with
          | .ref qaddr =>
            let h2 := setFieldH h1 qaddr "fields" (.str fields)
            let h3 := setFieldH h2 a "method" (.str "GET")
            sendMessageH { rs.2 with heap := h3 } (.ref a) rd
          | _ => none
        | _ => none)
    | _ => none)

/-- Heap effect of `sendAttachmentMessage` (source lines 225-227): allocate
the `{ attachment }` wrapper and display it. -/
def sendAttachmentMessageH (s : UtilsState) (id : String) (payload : HVal)
    (tag : Option MessageTag) (rd : RequestData) : Option UtilsState :=
  let p := allocH s [("attachment", payload)]
  sendDisplayMessageH p.2 id p.1 tag rd

/-- Heap effect of `sendUrlOrIdBasedMessage` (source lines 215-223). -/
def sendUrlOrIdBasedMessageH (s : UtilsState) (id : String)
    (type : ATTACHMENT_TYPE) (urlOrId : String) (tag : Option MessageTag)
    (rd : RequestData) : Option UtilsState :=
  let inner := allocH s
    (if urlRegexMatches urlOrId then
      [("is_reusable", .boolV true), ("url", .str urlOrId)]
    else
      [("attachment_id", .str urlOrId)])
  let outer := allocH inner.2 [("type", .atypeV type), ("payload", inner.1)]
  sendAttachmentMessageH outer.2 id outer.1 tag rd

/-- One public client call, for the frame theorem over call sequences. The
caller-supplied structured arguments (button arrays, template payloads,
quick-reply arrays, attachment payloads) are opaque heap values. -/
inductive ClientOp where
  | markSeen (id : String)
  | toggleTyping (id : String) (toggle : BoolOrFn) (cbPresent : Bool)
  | sendText (id text : String) (tag : Option MessageTag)
  | sendImage (id urlOrId : String) (tag : Option MessageTag)
  | sendAudio (id urlOrId : String) (tag : Option MessageTag)
  | sendVideo (id urlOrId : String) (tag : Option MessageTag)
  | sendFile (id urlOrId : String) (tag : Option MessageTag)
  | sendButtons (id text : String) (buttons : HVal) (tag : Option MessageTag)
  | sendTemplate (id : String) (templatePayload : HVal) (tag : Option MessageTag)
  | sendQuickReply (id : String) (textOrAttachment : String ⊕ HVal)
      (quickReplies : HVal) (tag : Option MessageTag)
  | getUserProfile (id : String) (fieldsArray : Option (List String))

/-- Heap effect of one public client call with request data `rd`. -/
def stepOp (rd : RequestData) (op : ClientOp) (s : UtilsState) :
    Option UtilsState :=
  match op with
  | .markSeen id => sendActionH s id "mark_seen" rd
  | .toggleTyping id toggle cbPresent =>
    if cbPresent then
      if truthyBF toggle then sendActionH s id "typing_on" rd
      else sendActionH s id "typing_off" rd
    else
      (match toggle with
       | .f _ => sendActionH s id "typing_off" rd
       | .b b =>
         if b then sendActionH s id "typing_on" rd
         else sendActionH s id "typing_off" rd)
  | .sendText id text tag =>
    let p := allocH s [("text", .str text)]
    sendDisplayMessageH p.2 id p.1 tag rd
  | .sendImage id u tag => sendUrlOrIdBasedMessageH s id .IMAGE u tag rd
  | .sendAudio id u tag => sendUrlOrIdBasedMessageH s id ATTACHMENT_TYPE.AUDIO u tag rd
  | .sendVideo id u tag => sendUrlOrIdBasedMessageH s id .VIDEO u tag rd
  | .sendFile id u tag => sendUrlOrIdBasedMessageH s id .FILE u tag rd
  | .sendButtons id text buttons tag =>
    let p := allocH s [("text", .str text), ("buttons", buttons),
      ("template_type", .str "button")]
    let outer := allocH p.2 [("type", .atypeV .TEMPLATE), ("payload", p.1)]
    sendAttachmentMessageH outer.2 id outer.1 tag rd
  | .sendTemplate id tpl tag =>
    let outer := allocH s [("type", .atypeV .TEMPLATE), ("payload", tpl)]
    sendAttachmentMessageH outer.2 id outer.1 tag rd
  | .sendQuickReply id toa qrs tag =>
    let p := allocH s
      (match toa with
       | .inl text => [("text", .str text), ("quick_replies", qrs)]
       | .inr att => [("attachment", att), ("quick_replies", qrs)])
    sendDisplayMessageH p.2 id p.1 tag rd
  | .getUserProfile id fieldsArray => getUserProfileH s id fieldsArray rd

/-- Heap effect of a sequence of public client calls. -/
def stepOps (calls : List (RequestData × ClientOp)) (s : UtilsState) :
    Option UtilsState :=
  match calls with
  | [] => some s
  | c :: rest => (stepOp c.1 c.2 s).bind (stepOps rest)

/-- Every allocated address is below `n`. -/
def domLt (h : Heap) (n : Nat) : Prop :=
  ∀ e ∈ h, e.1 < n

/-- Well-formedness of a `Utils` state whose base options object holds URL `u`
and whose `qs` child sits at `qaddr`: the exact shape the static initializer
gives `Utils.requestOptions` (source lines 284-290), with every allocated
address below the allocation counter. -/
def WFat (s : UtilsState) (u : String) (qaddr : Nat) : Prop :=
  lookupH s.heap s.base =
    some [("url", .str u), ("qs", .ref qaddr), ("method", .undef)] ∧
  lookupH s.heap qaddr = some [("access_token", .undef)] ∧
  s.base ≠ qaddr ∧
  s.base < s.next ∧
  qaddr < s.next ∧
  domLt s.heap s.next

/-- The initial `Utils` state: the static `Utils.requestOptions` at address 0
with its `qs` object at address 1. -/
def initState : UtilsState :=
  ⟨[(0, [("url", .str "https://graph.facebook.com/v3.1/"), ("qs", .ref 1),
      ("method", .undef)]),
    (1, [("access_token", .undef)])], 2, 0⟩

/-!
Claim theorems over the pure model.
-/

/-- The `message.attachment` part of a built request body. -/
def messageAttachment (o : RequestOptions) : Option Json :=
  (jsonField o "message").bind (fun m => Json.getField m "attachment")

/-- C1, counterexample. The claim says the promise rejects whenever the
response body has an error field, but when the body arrives as an
already-parsed object (as it does for every request issued with a `json`
body), the promise branch resolves with it without looking at `error`: here a
body whose `error` field is present and truthy is nevertheless resolved. -/
theorem c1_promise_counterexample :
    truthy (bodyErrorField (Body.object
      [("error", Json.obj [("message", Json.str "boom")])])) = true ∧
    sendMessagePromise none (Body.object
      [("error", Json.obj [("message", Json.str "boom")])]) =
      PResult.resolve (some (Json.obj
        [("error", Json.obj [("message", Json.str "boom")])])) :=
  ⟨rfl, rfl⟩

/-- C1, amended. Without a callback, `sendMessage` rejects with the transport
error if one occurred; otherwise a string body (of valid JSON) is parsed and
the promise rejects with the parsed body's `error.message` when its `error`
field is truthy, else resolves with the parsed object; a body that is already
an object is resolved with unchanged, even when it has an error field. -/
theorem c1_promise_amended : ∀ (err : Option String) (body : Body),
    (∀ e, err = some e →
      sendMessagePromise err body = .reject (.transport e)) ∧
    (∀ fields, err = none → body = .object fields →
      sendMessagePromise err body = .resolve (some (.obj fields))) ∧
    (∀ j, err = none → body = .text j →
      truthy (Json.getField j "error") = true →
      sendMessagePromise err body =
        .reject (.value ((Json.getField j "error").bind
          (fun ej => Json.getField ej "message")))) ∧
    (∀ j, err = none → body = .text j →
      truthy (Json.getField j "error") = false →
      sendMessagePromise err body = .resolve (some j)) := by
  intro err body
  refine ⟨?_, ?_, ?_, ?_⟩
  · rintro e rfl
    rfl
  · rintro fields rfl rfl
    rfl
  · rintro j rfl rfl h
    simp [sendMessagePromise, h]
  · rintro j rfl rfl h
    simp [sendMessagePromise, h]

/-- C1, witness: the amended characterization evaluated on one concrete
outcome of each kind. -/
theorem c1_promise_amended_witness :
    sendMessagePromise (some "ECONNRESET") (Body.text Json.null) =
      .reject (.transport "ECONNRESET") ∧
    sendMessagePromise none (Body.object [("ok", Json.bool true)]) =
      .resolve (some (.obj [("ok", Json.bool true)])) ∧
    sendMessagePromise none
      (Body.text (Json.obj [("error", Json.obj [("message", Json.str "m")])])) =
      .reject (.value (some (Json.str "m"))) ∧
    sendMessagePromise none (Body.text (Json.obj [("id", Json.str "1")])) =
      .resolve (some (Json.obj [("id", Json.str "1")])) :=
  ⟨(c1_promise_amended _ _).1 _ rfl,
   (c1_promise_amended _ _).2.1 _ rfl rfl,
   (c1_promise_amended _ _).2.2.1 _ rfl rfl (by decide),
   (c1_promise_amended _ _).2.2.2 _ rfl rfl (by decide)⟩

/-- C2. With a callback supplied, `sendMessage` invokes it with the transport
error alone when one occurred, otherwise with the body's truthy `error`
property alone when present, otherwise with `(null, body)`; the body is passed
through exactly as received — in particular a string body is never parsed into
an object in this mode (its `error` property is `undefined`, so a string body
always reaches the `(null, body)` case unchanged). -/
theorem c2_callback_dispatch : ∀ (err : Option String) (body : Body),
    (∀ e, err = some e → sendMessageCallback err body = .errOnly e) ∧
    (∀ v, err = none → bodyErrorField body = some v → truthy (some v) = true →
      sendMessageCallback err body = .bodyErr v) ∧
    (err = none → truthy (bodyErrorField body) = false →
      sendMessageCallback err body = .success body) ∧
    (∀ j, err = none → body = .text j →
      sendMessageCallback err body = .success (.text j)) := by
  intro err body
  refine ⟨?_, ?_, ?_, ?_⟩
  · rintro e rfl
    rfl
  · rintro v rfl hv ht
    simp [sendMessageCallback, hv, ht]
  · rintro rfl hf
    unfold sendMessageCallback
    cases hv : bodyErrorField body with
    | none => rfl
    | some v =>
      rw [hv] at hf
      simp [hf]
  · rintro j rfl rfl
    rfl

/-- C2, witness: the callback dispatch evaluated on one concrete outcome of
each kind, including an unparsed string body. -/
theorem c2_callback_dispatch_witness :
    sendMessageCallback (some "ETIMEDOUT") (Body.text Json.null) =
      .errOnly "ETIMEDOUT" ∧
    sendMessageCallback none
      (Body.object [("error", Json.obj [("message", Json.str "m")])]) =
      .bodyErr (Json.obj [("message", Json.str "m")]) ∧
    sendMessageCallback none (Body.object [("ok", Json.bool true)]) =
      .success (Body.object [("ok", Json.bool true)]) ∧
    sendMessageCallback none
      (Body.text (Json.obj [("error", Json.obj [("message", Json.str "m")])])) =
      .success (Body.text (Json.obj [("error",
        Json.obj [("message", Json.str "m")])])) :=
  ⟨(c2_callback_dispatch _ _).1 _ rfl,
   (c2_callback_dispatch _ _).2.1 _ rfl rfl (by decide),
   (c2_callback_dispatch _ _).2.2.1 rfl (by decide),
   (c2_callback_dispatch _ _).2.2.2 _ rfl rfl⟩

/-- C3, counterexample. A plain hostname that merely begins with the letters
`http` (here `httpproxy.local`) skips the scheme-prepending branch, so the
stored proxy string starts with neither `http://` nor `https://`. -/
theorem c3_scheme_counterexample :
    proxyOf (getProxyData ⟨"t", none⟩
      (.objArg (some "httpproxy.local") (some "8080"))) =
      some "httpproxy.local:8080" ∧
    strStarts "httpproxy.local:8080" "http://" = false ∧
    strStarts "httpproxy.local:8080" "https://" = false := by
  decide

/-- C3, amended. For every accepted proxy descriptor the stored proxy string
begins with `http` — either because the hostname already starts with `http`
and is used verbatim, or because `http://` is prepended. A full
`http://`/`https://` scheme is not guaranteed. -/
theorem c3_proxy_scheme : ∀ (rd : RequestData) (hn pt : String),
    (proxyOf (getProxyData rd (.objArg (some hn) (some pt)))).isSome = true ∧
    strStarts ((proxyOf (getProxyData rd
      (.objArg (some hn) (some pt)))).getD "") "http" = true := by
  intro rd hn pt
  cases hs : strStarts hn "http" with
  | true =>
    have hpre : "http".data <+: hn.data := by
      rw [← List.isPrefixOf_iff_prefix]
      exact hs
    refine ⟨by simp [getProxyData, proxyOf, hs], ?_⟩
    simp only [getProxyData, proxyOf, hs, if_true, Option.getD_some]
    unfold strStarts
    rw [List.isPrefixOf_iff_prefix, String.data_append, String.data_append]
    exact (hpre.trans (List.prefix_append _ _)).trans (List.prefix_append _ _)
  | false =>
    refine ⟨by simp [getProxyData, proxyOf, hs], ?_⟩
    simp only [getProxyData, proxyOf, hs, if_false, Option.getD_some,
      Bool.false_eq_true]
    unfold strStarts
    rw [List.isPrefixOf_iff_prefix, String.data_append, String.data_append,
      String.data_append]
    have hpre : "http".data <+: "http://".data := by
      rw [← List.isPrefixOf_iff_prefix]
      decide
    exact ((hpre.trans (List.prefix_append _ _)).trans
      (List.prefix_append _ _)).trans (List.prefix_append _ _)

/-- C4, counterexample. An explicit `null` proxy argument is supplied
(non-absent) and is not an object carrying `hostname` and `port`, yet
`getProxyData` returns normally: `null` is falsy, so the `if (proxyData)`
guard skips validation entirely. -/
theorem c4_throw_counterexample :
    proxyErred (getProxyData ⟨"t", none⟩ ProxyArg.nullArg) = false ∧
    suppliedProxyArg ProxyArg.nullArg = true ∧
    hasBothFields ProxyArg.nullArg = false := by
  decide

/-- C4, amended. `getProxyData` throws if and only if the proxy argument is
truthy and is not a plain object carrying both a `hostname` and a `port`
field; an absent or falsy argument (such as `null`), or a well-formed
descriptor, returns normally. -/
theorem c4_throw_iff : ∀ (rd : RequestData) (pd : ProxyArg),
    proxyErred (getProxyData rd pd) =
      (truthyProxyArg pd && !hasBothFields pd) := by
  intro rd pd
  cases pd with
  | undefinedArg => rfl
  | nullArg => rfl
  | otherTruthy => rfl
  | objArg h p =>
    cases h with
    | none => cases p <;> rfl
    | some hn =>
      cases p with
      | none => rfl
      | some pt =>
        simp only [getProxyData, truthyProxyArg, hasBothFields]
        cases strStarts hn "http" <;> rfl

/-- C10. With a callback supplied, `sendMessage` still returns a promise, and
that promise is `Promise.resolve()` — already fulfilled with `undefined` — for
every transport outcome; the outcome only ever reaches the callback. -/
theorem c10_callback_mode_promise : ∀ (err : Option String) (body : Body),
    (sendMessage true err body).1 = PResult.resolve none ∧
    (sendMessage true err body).2 = some (sendMessageCallback err body) := by
  intro err body
  exact ⟨rfl, rfl⟩

/-- C6. For each media-send method, a string matching the URL-detection regex
becomes a reusable `url` attachment payload, any other string an
`attachment_id` payload, tagged with the method's attachment type. -/
theorem c6_media_attachment : ∀ (u id s : String) (tag : Option MessageTag),
    (urlRegexMatches s = true →
      messageAttachment (sendImageMessageOptions u id s tag) =
        some (.obj [("type", .atype .IMAGE),
          ("payload", .obj [("is_reusable", .bool true), ("url", .str s)])]) ∧
      messageAttachment (sendAudioMessageOptions u id s tag) =
        some (.obj [("type", .atype ATTACHMENT_TYPE.AUDIO),
          ("payload", .obj [("is_reusable", .bool true), ("url", .str s)])]) ∧
      messageAttachment (sendVideoMessageOptions u id s tag) =
        some (.obj [("type", .atype .VIDEO),
          ("payload", .obj [("is_reusable", .bool true), ("url", .str s)])]) ∧
      messageAttachment (sendFileMessageOptions u id s tag) =
        some (.obj [("type", .atype .FILE),
          ("payload", .obj [("is_reusable", .bool true), ("url", .str s)])])) ∧
    (urlRegexMatches s = false →
      messageAttachment (sendImageMessageOptions u id s tag) =
        some (.obj [("type", .atype .IMAGE),
          ("payload", .obj [("attachment_id", .str s)])]) ∧
      messageAttachment (sendAudioMessageOptions u id s tag) =
        some (.obj [("type", .atype ATTACHMENT_TYPE.AUDIO),
          ("payload", .obj [("attachment_id", .str s)])]) ∧
      messageAttachment (sendVideoMessageOptions u id s tag) =
        some (.obj [("type", .atype .VIDEO),
          ("payload", .obj [("attachment_id", .str s)])]) ∧
      messageAttachment (sendFileMessageOptions u id s tag) =
        some (.obj [("type", .atype .FILE),
          ("payload", .obj [("attachment_id", .str s)])])) := by
  intro u id s tag
  constructor
  · intro h
    cases tag <;>
      simp [sendImageMessageOptions, sendAudioMessageOptions,
        sendVideoMessageOptions, sendFileMessageOptions,
        sendUrlOrIdBasedMessageOptions, sendAttachmentMessageOptions,
        sendDisplayMessageOptions, generateBasicRequestPayload, jsonWith,
        objSet, messageAttachment, jsonField, Json.getField, h]
  · intro h
    cases tag <;>
      simp [sendImageMessageOptions, sendAudioMessageOptions,
        sendVideoMessageOptions, sendFileMessageOptions,
        sendUrlOrIdBasedMessageOptions, sendAttachmentMessageOptions,
        sendDisplayMessageOptions, generateBasicRequestPayload, jsonWith,
        objSet, messageAttachment, jsonField, Json.getField, h]

/-- C6, witness: both branches of the URL heuristic evaluated on concrete
strings (`ab.cd` matches the regex, `12345` does not). -/
theorem c6_media_attachment_witness :
    urlRegexMatches "ab.cd" = true ∧
    messageAttachment (sendImageMessageOptions "B/" "u" "ab.cd" none) =
      some (.obj [("type", .atype .IMAGE),
        ("payload", .obj [("is_reusable", .bool true), ("url", .str "ab.cd")])]) ∧
    urlRegexMatches "12345" = false ∧
    messageAttachment (sendFileMessageOptions "B/" "u" "12345" none) =
      some (.obj [("type", .atype .FILE),
        ("payload", .obj [("attachment_id", .str "12345")])]) :=
  ⟨by decide,
   ((c6_media_attachment "B/" "u" "ab.cd" none).1 (by decide)).1,
   by decide,
   (((c6_media_attachment "B/" "u" "12345" none).2 (by decide)).2.2.2)⟩

/-- C7. `toggleTyping(id, true)` builds a `typing_on` sender action,
`toggleTyping(id, false)` a `typing_off` one, and `toggleTyping(id, cb)` with
a function second argument builds `typing_off` while routing that function as
the callback. -/
theorem c7_toggle_typing : ∀ (u id : String),
    (jsonField (toggleTyping u id (.b true) none).1 "sender_action" =
        some (.str "typing_on") ∧
      (toggleTyping u id (.b true) none).2 = none) ∧
    (jsonField (toggleTyping u id (.b false) none).1 "sender_action" =
        some (.str "typing_off") ∧
      (toggleTyping u id (.b false) none).2 = none) ∧
    (∀ t : CbTag,
      jsonField (toggleTyping u id (.f t) none).1 "sender_action" =
        some (.str "typing_off") ∧
      (toggleTyping u id (.f t) none).2 = some t) := by
  intro u id
  refine ⟨⟨rfl, rfl⟩, ⟨rfl, rfl⟩, fun t => ⟨rfl, rfl⟩⟩

/-- C8, counterexample. `markSeen` is a public client method, yet its built
request body never carries the messaging-tag pair: the method's signature
(source line 62, `markSeen(id, cb?)`) offers no tag parameter, so no argument
can put `messaging_type`/`tag` into its payload — contradicting the claim that
every public method accepts an optional messaging-tag pair. -/
theorem c8_tag_counterexample :
    jsonField (markSeenOptions "https://graph.facebook.com/v3.1/" "user")
      "messaging_type" = none ∧
    jsonField (markSeenOptions "https://graph.facebook.com/v3.1/" "user")
      "tag" = none :=
  ⟨rfl, rfl⟩

/-- C8, amended. The seven message-sending methods that take a tag parameter
(`sendTextMessage`, the four media senders, `sendButtonsMessage`,
`sendTemplateMessage`, `sendQuickReplyMessage`) add `messaging_type`/`tag` to
the request body exactly when a pair is supplied; `markSeen`, `toggleTyping`
and `getUserProfile` have no tag parameter and their requests never carry
those fields; every method accepts an optional callback, and with the
callback absent `sendMessage` returns the outcome-reflecting deferred result
and invokes no callback. -/
theorem c8_tag_and_deferred : ∀ (u id text uoi : String) (buttons tpl qrs : Json)
    (toa : String ⊕ Json) (fa : Option (List String)) (mt : MessageTag)
    (err : Option String) (body : Body),
    (jsonField (sendTextMessageOptions u id text (some mt)) "messaging_type" =
        some (.str mt.messaging_type) ∧
      jsonField (sendTextMessageOptions u id text (some mt)) "tag" =
        some (.str mt.tag) ∧
      jsonField (sendTextMessageOptions u id text none) "messaging_type" = none ∧
      jsonField (sendTextMessageOptions u id text none) "tag" = none) ∧
    (∀ t : ATTACHMENT_TYPE,
      jsonField (sendUrlOrIdBasedMessageOptions u id t uoi (some mt))
          "messaging_type" = some (.str mt.messaging_type) ∧
      jsonField (sendUrlOrIdBasedMessageOptions u id t uoi (some mt)) "tag" =
        some (.str mt.tag) ∧
      jsonField (sendUrlOrIdBasedMessageOptions u id t uoi none)
        "messaging_type" = none ∧
      jsonField (sendUrlOrIdBasedMessageOptions u id t uoi none) "tag" = none) ∧
    (jsonField (sendButtonsMessageOptions u id text buttons (some mt))
        "messaging_type" = some (.str mt.messaging_type) ∧
      jsonField (sendButtonsMessageOptions u id text buttons (some mt)) "tag" =
        some (.str mt.tag) ∧
      jsonField (sendButtonsMessageOptions u id text buttons none)
        "messaging_type" = none ∧
      jsonField (sendButtonsMessageOptions u id text buttons none) "tag" = none) ∧
    (jsonField (sendTemplateMessageOptions u id tpl (some mt))
        "messaging_type" = some (.str mt.messaging_type) ∧
      jsonField (sendTemplateMessageOptions u id tpl (some mt)) "tag" =
        some (.str mt.tag) ∧
      jsonField (sendTemplateMessageOptions u id tpl none) "messaging_type" =
        none ∧
      jsonField (sendTemplateMessageOptions u id tpl none) "tag" = none) ∧
    (jsonField (sendQuickReplyMessageOptions u id toa qrs (some mt))
        "messaging_type" = some (.str mt.messaging_type) ∧
      jsonField (sendQuickReplyMessageOptions u id toa qrs (some mt)) "tag" =
        some (.str mt.tag) ∧
      jsonField (sendQuickReplyMessageOptions u id toa qrs none)
        "messaging_type" = none ∧
      jsonField (sendQuickReplyMessageOptions u id toa qrs none) "tag" = none) ∧
    (jsonField (markSeenOptions u id) "messaging_type" = none ∧
      jsonField (markSeenOptions u id) "tag" = none) ∧
    (∀ (tog : BoolOrFn) (cb : Option CbTag),
      jsonField (toggleTyping u id tog cb).1 "messaging_type" = none ∧
      jsonField (toggleTyping u id tog cb).1 "tag" = none) ∧
    (getUserProfileOptions u id fa).json = none ∧
    sendMessage false err body = (sendMessagePromise err body, none) := by
  intro u id text uoi buttons tpl qrs toa fa mt err body
  refine ⟨⟨rfl, rfl, rfl, rfl⟩, ?_, ⟨rfl, rfl, rfl, rfl⟩, ⟨rfl, rfl, rfl, rfl⟩,
    ?_, ⟨rfl, rfl⟩, ?_, rfl, rfl⟩
  · intro t
    unfold sendUrlOrIdBasedMessageOptions
    cases urlRegexMatches uoi <;>
      exact ⟨rfl, rfl, rfl, rfl⟩
  · cases toa <;> exact ⟨rfl, rfl, rfl, rfl⟩
  · intro tog cb
    cases cb with
    | some c =>
      cases tog with
      | b b => cases b <;> exact ⟨rfl, rfl⟩
      | f t => exact ⟨rfl, rfl⟩
    | none =>
      cases tog with
      | b b => cases b <;> exact ⟨rfl, rfl⟩
      | f t => exact ⟨rfl, rfl⟩

/-!
Frame lemmas for the heap model.
-/

/-- Lookups below an upper bound on the allocated addresses fail. -/
theorem lookupH_none_of_domLt {h : Heap} {n a : Nat} (hd : domLt h n)
    (ha : n ≤ a) : lookupH h a = none := by
  induction h with
  | nil => rfl
  | cons e rest ih =>
    have he := hd e (List.mem_cons_self e rest)
    have hne : (e.1 == a) = false := by
      simp only [beq_eq_false_iff_ne, ne_eq]
      omega
    simp only [lookupH, hne, if_false, Bool.false_eq_true]
    exact ih (fun x hx => hd x (List.mem_cons_of_mem e hx))

/-- Lookup distributes over heap concatenation. -/
theorem lookupH_append (h t : Heap) (a : Nat) :
    lookupH (h ++ t) a = ((lookupH h a).or (lookupH t a)) := by
  induction h with
  | nil => simp [lookupH]
  | cons e rest ih =>
    cases he : (e.1 == a) with
    | true => simp [lookupH, he]
    | false => simp [lookupH, he, ih]

/-- A successful lookup survives appending further allocations. -/
theorem lookupH_append_left {h : Heap} {a : Nat} {o : HObj}
    (hx : lookupH h a = some o) (t : Heap) : lookupH (h ++ t) a = some o := by
  rw [lookupH_append, hx]
  rfl

/-- Appending one fresh object does not change lookups at other addresses. -/
theorem lookupH_append_single {h : Heap} {m b : Nat} (o : HObj) (hne : b ≠ m) :
    lookupH (h ++ [(m, o)]) b = lookupH h b := by
  rw [lookupH_append]
  have : lookupH [(m, o)] b = none := by
    simp [lookupH, beq_eq_false_iff_ne, Ne.symm hne]
  rw [this]
  cases lookupH h b <;> rfl

/-- Looking up a freshly appended address finds the new object when the
address was not yet allocated. -/
theorem lookupH_append_fresh {h : Heap} {a : Nat} (o : HObj)
    (hd : domLt h a) : lookupH (h ++ [(a, o)]) a = some o := by
  rw [lookupH_append, lookupH_none_of_domLt hd (Nat.le_refl a)]
  simp [lookupH]

/-- A field write at one address does not change lookups at another. -/
theorem lookupH_setFieldH_ne {h : Heap} {a b : Nat} {k : String} {v : HVal}
    (hne : b ≠ a) : lookupH (setFieldH h a k v) b = lookupH h b := by
  induction h with
  | nil => rfl
  | cons e rest ih =>
    cases hea : (e.1 == a) with
    | true =>
      have heb : (e.1 == b) = false := by
        have : e.1 = a := by simpa using hea
        simp [this, beq_eq_false_iff_ne, Ne.symm hne]
      simp [setFieldH, lookupH, hea, heb]
    | false =>
      cases heb : (e.1 == b) with
      | true => simp [setFieldH, lookupH, hea, heb]
      | false => simp [setFieldH, lookupH, hea, heb, ih]

/-- A field write at an address rewrites exactly that object. -/
theorem lookupH_setFieldH_eq {h : Heap} {a : Nat} {k : String} {v : HVal} :
    lookupH (setFieldH h a k v) a = (lookupH h a).map (fun o => setK o k v) := by
  induction h with
  | nil => rfl
  | cons e rest ih =>
    cases hea : (e.1 == a) with
    | true => simp [setFieldH, lookupH, hea]
    | false => simp [setFieldH, lookupH, hea, ih]

/-- Upper bounds on allocated addresses are monotone. -/
theorem domLt_mono {h : Heap} {n m : Nat} (hd : domLt h n) (hle : n ≤ m) :
    domLt h m :=
  fun e he => Nat.lt_of_lt_of_le (hd e he) hle

/-- An allocation below the bound preserves it. -/
theorem domLt_append_single {h : Heap} {n a : Nat} (o : HObj) (hd : domLt h n)
    (ha : a < n) : domLt (h ++ [(a, o)]) n := by
  intro e he
  rcases List.mem_append.mp he with hl | hr
  · exact hd e hl
  · have : e = (a, o) := by simpa using hr
    rw [this]
    exact ha

/-- A field write allocates nothing. -/
theorem domLt_setFieldH {h : Heap} {n a : Nat} {k : String} {v : HVal}
    (hd : domLt h n) : domLt (setFieldH h a k v) n := by
  induction h with
  | nil => intro e he; cases he
  | cons e rest ih =>
    intro x hx
    cases hea : (e.1 == a) with
    | true =>
      rw [setFieldH] at hx
      simp only [hea, if_true] at hx
      rcases List.mem_cons.mp hx with hx1 | hx2
      · have : x.1 = e.1 := by rw [hx1]
        rw [this]
        exact hd e (List.mem_cons_self e rest)
      · exact hd x (List.mem_cons_of_mem e hx2)
    | false =>
      rw [setFieldH] at hx
      simp only [hea, Bool.false_eq_true, if_false] at hx
      rcases List.mem_cons.mp hx with hx1 | hx2
      · rw [hx1]
        exact hd e (List.mem_cons_self e rest)
      · exact ih (fun y hy => hd y (List.mem_cons_of_mem e hy)) x hx2

/-- Reading a field that a write did not touch. -/
theorem getK_setK_ne {o : HObj} {k k2 : String} {v : HVal} (hne : k2 ≠ k) :
    getK (setK o k v) k2 = getK o k2 := by
  induction o with
  | nil => simp [setK, getK, beq_eq_false_iff_ne, Ne.symm hne]
  | cons e rest ih =>
    cases hek : (e.1 == k) with
    | true =>
      have heb : (e.1 == k2) = false := by
        have : e.1 = k := by simpa using hek
        simp [this, beq_eq_false_iff_ne, Ne.symm hne]
      have hkk2 : (k == k2) = false := by
        simp [beq_eq_false_iff_ne, Ne.symm hne]
      simp [setK, getK, hek, heb, hkk2]
    | false =>
      cases heb : (e.1 == k2) with
      | true => simp [setK, getK, hek, heb]
      | false => simp [setK, getK, hek, heb, ih]

/-- Reading the field a write just set. -/
theorem getK_setK_eq {o : HObj} {k : String} {v : HVal} :
    getK (setK o k v) k = v := by
  induction o with
  | nil => simp [setK, getK]
  | cons e rest ih =>
    cases hek : (e.1 == k) with
    | true => simp [setK, getK, hek]
    | false => simp [setK, getK, hek, ih]

/-- Frame relation between `Utils` states: the base pointer is unchanged, the
allocation counter grows, every lookup below `n` is untouched, and bounded
heaps stay bounded. All heap effects of the client operations relate the
states before and after by `FrameGe n` for every `n` up to the starting
allocation counter, which is what makes objects allocated before the call —
the static base options in particular — unreachable by their writes. -/
def FrameGe (n : Nat) (s s' : UtilsState) : Prop :=
  s'.base = s.base ∧ s.next ≤ s'.next ∧
  (∀ a, a < n → lookupH s'.heap a = lookupH s.heap a) ∧
  (domLt s.heap s.next → domLt s'.heap s'.next)

/-- `FrameGe` is reflexive. -/
theorem frameGe_refl (n : Nat) (s : UtilsState) : FrameGe n s s :=
  ⟨rfl, Nat.le_refl _, fun _ _ => rfl, fun hd => hd⟩

/-- `FrameGe` composes. -/
theorem frameGe_trans {n : Nat} {s1 s2 s3 : UtilsState}
    (h12 : FrameGe n s1 s2) (h23 : FrameGe n s2 s3) : FrameGe n s1 s3 :=
  ⟨h23.1.trans h12.1, Nat.le_trans h12.2.1 h23.2.1,
   fun a ha => (h23.2.2.1 a ha).trans (h12.2.2.1 a ha),
   fun hd => h23.2.2.2 (h12.2.2.2 hd)⟩

/-- `FrameGe` weakens to smaller bounds. -/
theorem frameGe_mono {n m : Nat} {s s' : UtilsState} (hle : m ≤ n)
    (h : FrameGe n s s') : FrameGe m s s' :=
  ⟨h.1, h.2.1, fun a ha => h.2.2.1 a (Nat.lt_of_lt_of_le ha hle), h.2.2.2⟩

/-- Allocation preserves everything below the allocation counter. -/
theorem frameGe_allocH {n : Nat} {s : UtilsState} (o : HObj)
    (hn : n ≤ s.next) : FrameGe n s (allocH s o).2 := by
  refine ⟨rfl, Nat.le_succ _, ?_, ?_⟩
  · intro a ha
    exact lookupH_append_single o (by omega)
  · intro hd
    exact domLt_append_single o (domLt_mono hd (Nat.le_succ _))
      (Nat.lt_succ_self _)

/-- A field write at an address at least `n` preserves everything below `n`. -/
theorem frameGe_setFieldH {n : Nat} {s : UtilsState} {a : Nat} {k : String}
    {v : HVal} (ha : n ≤ a) :
    FrameGe n s { s with heap := setFieldH s.heap a k v } := by
  refine ⟨rfl, Nat.le_refl _, ?_, ?_⟩
  · intro b hb
    exact lookupH_setFieldH_ne (by omega)
  · intro hd
    exact domLt_setFieldH hd

/-- All reference-valued fields of an object point into `[lo, hi)`. -/
def refsFresh (o : HObj) (lo hi : Nat) : Prop :=
  ∀ e ∈ o, ∀ m, e.2 = HVal.ref m → lo ≤ m ∧ m < hi

/-- `refsFresh` weakens outward. -/
theorem refsFresh_weaken {o : HObj} {lo hi lo' hi' : Nat}
    (h : refsFresh o lo hi) (hlo : lo' ≤ lo) (hhi : hi ≤ hi') :
    refsFresh o lo' hi' := by
  intro e he m hm
  have := h e he m hm
  omega

/-- A defined field value read by `getK` belongs to the object. -/
theorem mem_of_getK {o : HObj} {k : String} {v : HVal} (h : getK o k = v)
    (hne : v ≠ .undef) : (k, v) ∈ o := by
  induction o with
  | nil =>
    rw [getK] at h
    exact absurd h.symm hne
  | cons e rest ih =>
    rw [getK] at h
    by_cases hek : (e.1 == k) = true
    · rw [if_pos hek] at h
      have h1 : e.1 = k := by simpa using hek
      have : e = (k, v) := by
        cases e
        simp only [Prod.mk.injEq]
        exact ⟨h1, h⟩
      rw [← this]
      exact List.mem_cons_self e rest
    · rw [if_neg hek] at h
      exact List.mem_cons_of_mem e (ih h)

/-- Specification of the copy pass `copyFieldsH`: it only allocates fresh
objects (so the original state is framed), and every reference in the copied
field list points at one of the fresh allocations. -/
theorem copyFieldsH_spec : ∀ (fs : HObj) (s : UtilsState) (os : HObj)
    (s' : UtilsState), copyFieldsH s fs = some (os, s') →
    FrameGe s.next s s' ∧ refsFresh os s.next s'.next := by
  intro fs
  induction fs with
  | nil =>
    intro s os s' h
    rw [copyFieldsH] at h
    injection h with h'
    injection h' with h1 h2
    subst h1
    subst h2
    exact ⟨frameGe_refl _ _, fun e he => absurd he (List.not_mem_nil e)⟩
  | cons e rest ih =>
    intro s os s' h
    obtain ⟨k, v⟩ := e
    cases v with
    | undef =>
      rw [copyFieldsH] at h
      exact ih s os s' h
    | ref a =>
      rw [copyFieldsH] at h
      cases hl : lookupH s.heap a with
      | none => rw [hl] at h; cases h
      | some child =>
        rw [hl, Option.some_bind] at h
        cases hc : copyFlat child with
        | none => rw [hc] at h; cases h
        | some flat =>
          rw [hc, Option.some_bind] at h
          dsimp only at h
          cases hrec : copyFieldsH (allocH s flat).2 rest with
          | none => rw [hrec] at h; cases h
          | some p =>
            rw [hrec] at h
            rw [Option.map_some'] at h
            injection h with h'
            injection h' with h1 h2
            obtain ⟨hfg, hrf⟩ := ih (allocH s flat).2 p.1 p.2 hrec
            have halloc : FrameGe s.next s (allocH s flat).2 :=
              frameGe_allocH flat (Nat.le_refl _)
            have hfg' : FrameGe s.next s s' := by
              rw [← h2]
              exact frameGe_trans halloc (frameGe_mono (Nat.le_succ _) hfg)
            refine ⟨hfg', ?_⟩
            intro x hx m hm
            subst h1
            rcases List.mem_cons.mp hx with hx1 | hx2
            · have hm' : HVal.ref s.next = HVal.ref m := by
                rw [hx1] at hm
                exact hm
              injection hm' with hmm
              subst hmm
              have hnext : (allocH s flat).2.next ≤ p.2.next := hfg.2.1
              rw [← h2]
              constructor
              · exact Nat.le_refl _
              · exact Nat.lt_of_lt_of_le (Nat.lt_succ_self _) hnext
            · have hb := hrf x hx2 m hm
              have hstep : (allocH s flat).2.next = s.next + 1 := rfl
              rw [← h2]
              omega
    | str s0 =>
      rw [copyFieldsH] at h
      cases hrec : copyFieldsH s rest with
      | none => rw [hrec] at h; cases h
      | some p =>
        rw [hrec] at h
        rw [Option.map_some'] at h
        injection h with h'
        injection h' with h1 h2
        obtain ⟨hfg, hrf⟩ := ih s p.1 p.2 hrec
        subst h2
        refine ⟨hfg, ?_⟩
        intro x hx m hm
        subst h1
        rcases List.mem_cons.mp hx with hx1 | hx2
        · rw [hx1] at hm
          cases hm
        · exact hrf x hx2 m hm
    | boolV b =>
      rw [copyFieldsH] at h
      cases hrec : copyFieldsH s rest with
      | none => rw [hrec] at h; cases h
      | some p =>
        rw [hrec] at h
        rw [Option.map_some'] at h
        injection h with h'
        injection h' with h1 h2
        obtain ⟨hfg, hrf⟩ := ih s p.1 p.2 hrec
        subst h2
        refine ⟨hfg, ?_⟩
        intro x hx m hm
        subst h1
        rcases List.mem_cons.mp hx with hx1 | hx2
        · rw [hx1] at hm
          cases hm
        · exact hrf x hx2 m hm
    | atypeV t =>
      rw [copyFieldsH] at h
      cases hrec : copyFieldsH s rest with
      | none => rw [hrec] at h; cases h
      | some p =>
        rw [hrec] at h
        rw [Option.map_some'] at h
        injection h with h'
        injection h' with h1 h2
        obtain ⟨hfg, hrf⟩ := ih s p.1 p.2 hrec
        subst h2
        refine ⟨hfg, ?_⟩
        intro x hx m hm
        subst h1
        rcases List.mem_cons.mp hx with hx1 | hx2
        · rw [hx1] at hm
          cases hm
        · exact hrf x hx2 m hm

/-- Specification of `getRequestOptionsH`: the deep copy frames the existing
heap, returns a reference to a fresh root object, and every reference inside
that root points at a fresh allocation — the copy shares no object with the
base options. -/
theorem getRequestOptionsH_spec {s : UtilsState} {r : HVal} {s' : UtilsState}
    (hd : domLt s.heap s.next) (h : getRequestOptionsH s = some (r, s')) :
    FrameGe s.next s s' ∧
    ∃ a os, r = HVal.ref a ∧ s.next ≤ a ∧ a < s'.next ∧
      lookupH s'.heap a = some os ∧ refsFresh os s.next a := by
  unfold getRequestOptionsH at h
  cases hl : lookupH s.heap s.base with
  | none => rw [hl] at h; cases h
  | some root =>
    rw [hl, Option.some_bind] at h
    cases hc : copyFieldsH s root with
    | none => rw [hc] at h; cases h
    | some p =>
      rw [hc, Option.map_some'] at h
      dsimp only at h
      injection h with h'
      injection h' with h1 h2
      obtain ⟨hfg, hrf⟩ := copyFieldsH_spec root s p.1 p.2 hc
      have hfg' : FrameGe s.next s s' := by
        rw [← h2]
        exact frameGe_trans hfg (frameGe_allocH p.1 hfg.2.1)
      refine ⟨hfg', p.2.next, p.1, ?_, hfg.2.1, ?_, ?_, ?_⟩
      · rw [← h1]
        rfl
      · rw [← h2]
        exact Nat.lt_succ_self _
      · rw [← h2]
        exact lookupH_append_fresh p.1 (hfg.2.2.2 hd)
      · exact hrf

/-- Specification of the body-spread helper `mergeJsonFieldH`: it frames
everything below the pre-call allocation counter except the options object at
`a` itself, whose fields other than `json` are untouched. -/
theorem mergeJsonFieldH_spec {n : Nat} {s : UtilsState} {a : Nat}
    {kvs : List (String × HVal)} {s' : UtilsState}
    (hn : n ≤ s.next) (ha : n ≤ a) (halt : a < s.next)
    (h : mergeJsonFieldH s a kvs = some s') :
    FrameGe n s s' ∧
    ∃ ro, lookupH s.heap a = some ro ∧
      ∃ o', lookupH s'.heap a = some o' ∧
        ∀ k2, k2 ≠ "json" → getK o' k2 = getK ro k2 := by
  unfold mergeJsonFieldH at h
  cases hl : lookupH s.heap a with
  | none => rw [hl] at h; cases h
  | some ro =>
    rw [hl, Option.some_bind] at h
    split at h
    · cases hlj : lookupH s.heap _ with
      | none => rw [hlj] at h; cases h
      | some jo =>
        rw [hlj, Option.some_bind] at h
        dsimp only at h
        injection h with h'
        have hfga : FrameGe n s s' := by
          rw [← h']
          exact frameGe_trans (frameGe_allocH _ hn) (frameGe_setFieldH ha)
        refine ⟨hfga, ro, rfl, setK ro "json"
          (allocH s (List.foldl (fun o kv => setK o kv.1 kv.2) jo kvs)).1, ?_, ?_⟩
        · rw [← h']
          dsimp only
          rw [lookupH_setFieldH_eq]
          have hheq : (allocH s (List.foldl (fun o kv => setK o kv.1 kv.2) jo kvs)).2.heap =
              s.heap ++ [(s.next, List.foldl (fun o kv => setK o kv.1 kv.2) jo kvs)] := rfl
          rw [hheq, lookupH_append_single _ (Nat.ne_of_lt halt), hl]
          rfl
        · intro k2 hk2
          exact getK_setK_ne hk2
    · cases h

/-- Frame property of the heap effect of `Utils.sendMessage`: its two writes
target the options object and its `qs` child, both of which lie at or above
`n` whenever the options object does and its `qs` field is a reference no
older than `n`. -/
theorem sendMessageH_frame {n : Nat} {s : UtilsState} {r : Nat}
    {rd : RequestData} {s' : UtilsState} (hr : n ≤ r)
    (hqs : ∀ o m, lookupH s.heap r = some o → getK o "qs" = HVal.ref m → n ≤ m)
    (h : sendMessageH s (.ref r) rd = some s') : FrameGe n s s' := by
  unfold sendMessageH at h
  dsimp only at h
  cases hl : lookupH s.heap r with
  | none => rw [hl] at h; cases h
  | some ro =>
    rw [hl, Option.some_bind] at h
    split at h
    · rename_i qaddr hq
      have hqn : n ≤ qaddr := hqs ro qaddr hl hq
      cases hp : rd.proxy with
      | some p =>
        rw [hp] at h
        dsimp only at h
        injection h with h'
        rw [← h']
        exact frameGe_trans (frameGe_setFieldH hqn) (frameGe_setFieldH hr)
      | none =>
        rw [hp] at h
        dsimp only at h
        injection h with h'
        rw [← h']
        exact frameGe_setFieldH hqn
    · cases h

/-- Heap of a state after an allocation. -/
theorem allocH_heap (s : UtilsState) (o : HObj) :
    (allocH s o).2.heap = s.heap ++ [(s.next, o)] := rfl

/-- Allocation counter after an allocation. -/
theorem allocH_next (s : UtilsState) (o : HObj) :
    (allocH s o).2.next = s.next + 1 := rfl

/-- An allocation returns a reference to the old allocation counter. -/
theorem allocH_fst (s : UtilsState) (o : HObj) :
    (allocH s o).1 = HVal.ref s.next := rfl

/-- Specification of the heap effect of `generateBasicRequestPayload`: the
call frames everything allocated before it, returns the address of the fresh
copy of the base options, and that copy's `qs` field can only reference a
fresh allocation. -/
theorem generateBasicRequestPayloadH_spec {s : UtilsState} {id : String}
    {a : Nat} {s' : UtilsState} (hd : domLt s.heap s.next)
    (h : generateBasicRequestPayloadH s id = some (a, s')) :
    FrameGe s.next s s' ∧ s.next ≤ a ∧ a < s'.next ∧
    ∃ o, lookupH s'.heap a = some o ∧
      (∀ m, getK o "qs" = HVal.ref m → s.next ≤ m ∧ m < s'.next) := by
  unfold generateBasicRequestPayloadH at h
  cases hg : getRequestOptionsH s with
  | none => rw [hg] at h; cases h
  | some rs0 =>
    rw [hg, Option.some_bind] at h
    obtain ⟨hfg1, a0, os, hr, ha0, ha0lt, hlo, hrf⟩ :=
      getRequestOptionsH_spec hd hg
    rw [hr] at h
    dsimp only at h
    rw [hlo, Option.some_bind] at h
    split at h
    · rename_i u hu
      injection h with h'
      injection h' with h1 h2
      subst h1
      have hnexts : rs0.2.next ≤ s'.next := by
        rw [← h2]
        dsimp only
        rw [allocH_next, allocH_next]
        dsimp only
        omega
      have f1 : FrameGe s.next rs0.2
          ⟨setFieldH rs0.2.heap a0 "url" (HVal.str (u ++ "me/messages")),
            rs0.2.next, rs0.2.base⟩ := frameGe_setFieldH ha0
      have f2 : FrameGe s.next
          ⟨setFieldH rs0.2.heap a0 "url" (HVal.str (u ++ "me/messages")),
            rs0.2.next, rs0.2.base⟩
          ⟨setFieldH (setFieldH rs0.2.heap a0 "url"
              (HVal.str (u ++ "me/messages"))) a0 "method" (HVal.str "POST"),
            rs0.2.next, rs0.2.base⟩ := frameGe_setFieldH ha0
      have f3 : FrameGe s.next
          ⟨setFieldH (setFieldH rs0.2.heap a0 "url"
              (HVal.str (u ++ "me/messages"))) a0 "method" (HVal.str "POST"),
            rs0.2.next, rs0.2.base⟩
          (allocH ⟨setFieldH (setFieldH rs0.2.heap a0 "url"
              (HVal.str (u ++ "me/messages"))) a0 "method" (HVal.str "POST"),
            rs0.2.next, rs0.2.base⟩ [("id", HVal.str id)]).2 :=
        frameGe_allocH _ hfg1.2.1
      have f4 : FrameGe s.next
          (allocH ⟨setFieldH (setFieldH rs0.2.heap a0 "url"
              (HVal.str (u ++ "me/messages"))) a0 "method" (HVal.str "POST"),
            rs0.2.next, rs0.2.base⟩ [("id", HVal.str id)]).2
          (allocH (allocH ⟨setFieldH (setFieldH rs0.2.heap a0 "url"
              (HVal.str (u ++ "me/messages"))) a0 "method" (HVal.str "POST"),
            rs0.2.next, rs0.2.base⟩ [("id", HVal.str id)]).2
            [("recipient", (allocH ⟨setFieldH (setFieldH rs0.2.heap a0 "url"
              (HVal.str (u ++ "me/messages"))) a0 "method" (HVal.str "POST"),
              rs0.2.next, rs0.2.base⟩ [("id", HVal.str id)]).1)]).2 :=
        frameGe_allocH _ (Nat.le_succ_of_le hfg1.2.1)
      have f5 : FrameGe s.next
          (allocH (allocH ⟨setFieldH (setFieldH rs0.2.heap a0 "url"
              (HVal.str (u ++ "me/messages"))) a0 "method" (HVal.str "POST"),
            rs0.2.next, rs0.2.base⟩ [("id", HVal.str id)]).2
            [("recipient", (allocH ⟨setFieldH (setFieldH rs0.2.heap a0 "url"
              (HVal.str (u ++ "me/messages"))) a0 "method" (HVal.str "POST"),
              rs0.2.next, rs0.2.base⟩ [("id", HVal.str id)]).1)]).2
          ⟨setFieldH (allocH (allocH ⟨setFieldH (setFieldH rs0.2.heap a0 "url"
              (HVal.str (u ++ "me/messages"))) a0 "method" (HVal.str "POST"),
            rs0.2.next, rs0.2.base⟩ [("id", HVal.str id)]).2
            [("recipient", (allocH ⟨setFieldH (setFieldH rs0.2.heap a0 "url"
              (HVal.str (u ++ "me/messages"))) a0 "method" (HVal.str "POST"),
              rs0.2.next, rs0.2.base⟩ [("id", HVal.str id)]).1)]).2.heap
            a0 "json"
            (allocH (allocH ⟨setFieldH (setFieldH rs0.2.heap a0 "url"
              (HVal.str (u ++ "me/messages"))) a0 "method" (HVal.str "POST"),
              rs0.2.next, rs0.2.base⟩ [("id", HVal.str id)]).2
              [("recipient", (allocH ⟨setFieldH (setFieldH rs0.2.heap a0 "url"
                (HVal.str (u ++ "me/messages"))) a0 "method" (HVal.str "POST"),
                rs0.2.next, rs0.2.base⟩ [("id", HVal.str id)]).1)]).1,
            (allocH (allocH ⟨setFieldH (setFieldH rs0.2.heap a0 "url"
              (HVal.str (u ++ "me/messages"))) a0 "method" (HVal.str "POST"),
            rs0.2.next, rs0.2.base⟩ [("id", HVal.str id)]).2
            [("recipient", (allocH ⟨setFieldH (setFieldH rs0.2.heap a0 "url"
              (HVal.str (u ++ "me/messages"))) a0 "method" (HVal.str "POST"),
              rs0.2.next, rs0.2.base⟩ [("id", HVal.str id)]).1)]).2.next,
            (allocH (allocH ⟨setFieldH (setFieldH rs0.2.heap a0 "url"
              (HVal.str (u ++ "me/messages"))) a0 "method" (HVal.str "POST"),
            rs0.2.next, rs0.2.base⟩ [("id", HVal.str id)]).2
            [("recipient", (allocH ⟨setFieldH (setFieldH rs0.2.heap a0 "url"
              (HVal.str (u ++ "me/messages"))) a0 "method" (HVal.str "POST"),
              rs0.2.next, rs0.2.base⟩ [("id", HVal.str id)]).1)]).2.base⟩ :=
        frameGe_setFieldH ha0
      have hA : FrameGe s.next s s' := by
        rw [← h2]
        exact frameGe_trans hfg1 (frameGe_trans f1 (frameGe_trans f2
          (frameGe_trans f3 (frameGe_trans f4 f5))))
      refine ⟨hA, ha0, ?_, ?_⟩
      · omega
      · refine ⟨setK (setK (setK os "url" (.str (u ++ "me/messages")))
          "method" (.str "POST")) "json" (.ref (rs0.2.next + 1)), ?_, ?_⟩
        · rw [← h2]
          dsimp only
          rw [lookupH_setFieldH_eq, allocH_heap, allocH_heap]
          rw [lookupH_append_single _ (by rw [allocH_next]; dsimp only; omega)]
          rw [lookupH_append_single _ (by dsimp only; omega)]
          rw [lookupH_setFieldH_eq, lookupH_setFieldH_eq, hlo]
          rfl
        · intro m hm
          rw [getK_setK_ne (by decide), getK_setK_ne (by decide),
            getK_setK_ne (by decide)] at hm
          have hmem := mem_of_getK hm (fun hcon => HVal.noConfusion hcon)
          have hb := hrf _ hmem m rfl
          omega
    · cases h

/-- Frame property of the heap effect of `sendAction`: nothing allocated
before the call is written. -/
theorem sendActionH_frame {s : UtilsState} {id payload : String}
    {rd : RequestData} {s' : UtilsState} (hd : domLt s.heap s.next)
    (h : sendActionH s id payload rd = some s') : FrameGe s.next s s' := by
  unfold sendActionH at h
  cases hg : generateBasicRequestPayloadH s id with
  | none => rw [hg] at h; cases h
  | some p =>
    rw [hg, Option.some_bind] at h
    obtain ⟨hfg1, ha, halt, o1, hlo1, hq1⟩ :=
      generateBasicRequestPayloadH_spec hd hg
    cases hm : mergeJsonFieldH p.2 p.1 [("sender_action", HVal.str payload)] with
    | none => rw [hm] at h; cases h
    | some s2 =>
      rw [hm, Option.some_bind] at h
      obtain ⟨hfg2, ro, hro, o2, hlo2, hpres⟩ :=
        mergeJsonFieldH_spec hfg1.2.1 ha halt hm
      have hoeq : o1 = ro := by
        rw [hlo1] at hro
        exact Option.some.inj hro
      have hqs2 : ∀ o m, lookupH s2.heap p.1 = some o →
          getK o "qs" = HVal.ref m → s.next ≤ m := by
        intro o m hlo hq
        rw [hlo2] at hlo
        have ho2 : o2 = o := Option.some.inj hlo
        rw [← ho2] at hq
        rw [hpres "qs" (by decide)] at hq
        rw [← hoeq] at hq
        exact (hq1 m hq).1
      exact frameGe_trans hfg1 (frameGe_trans hfg2
        (sendMessageH_frame ha hqs2 h))

/-- Frame property of the heap effect of `sendDisplayMessage`: nothing
allocated before the call is written, whatever payload value and optional tag
it is given. -/
theorem sendDisplayMessageH_frame {s : UtilsState} {id : String}
    {payload : HVal} {tag : Option MessageTag} {rd : RequestData}
    {s' : UtilsState} (hd : domLt s.heap s.next)
    (h : sendDisplayMessageH s id payload tag rd = some s') :
    FrameGe s.next s s' := by
  unfold sendDisplayMessageH at h
  cases hg : generateBasicRequestPayloadH s id with
  | none => rw [hg] at h; cases h
  | some p =>
    rw [hg, Option.some_bind] at h
    obtain ⟨hfg1, ha, halt, o1, hlo1, hq1⟩ :=
      generateBasicRequestPayloadH_spec hd hg
    cases hm : mergeJsonFieldH p.2 p.1 [("message", payload)] with
    | none => rw [hm] at h; cases h
    | some s2 =>
      rw [hm, Option.some_bind] at h
      obtain ⟨hfg2, ro, hro, o2, hlo2, hpres⟩ :=
        mergeJsonFieldH_spec hfg1.2.1 ha halt hm
      have hoeq : o1 = ro := by
        rw [hlo1] at hro
        exact Option.some.inj hro
      have hq2 : ∀ m, getK o2 "qs" = HVal.ref m → s.next ≤ m := by
        intro m hq
        rw [hpres "qs" (by decide)] at hq
        rw [← hoeq] at hq
        exact (hq1 m hq).1
      cases tag with
      | none =>
        rw [Option.some_bind] at h
        have hqs2 : ∀ o m, lookupH s2.heap p.1 = some o →
            getK o "qs" = HVal.ref m → s.next ≤ m := by
          intro o m hlo hq
          rw [hlo2] at hlo
          rw [← Option.some.inj hlo] at hq
          exact hq2 m hq
        exact frameGe_trans hfg1 (frameGe_trans hfg2
          (sendMessageH_frame ha hqs2 h))
      | some t =>
        dsimp only at h
        cases hm2 : mergeJsonFieldH s2 p.1
            [("messaging_type", HVal.str t.messaging_type),
              ("tag", HVal.str t.tag)] with
        | none => rw [hm2] at h; cases h
        | some s3 =>
          rw [hm2, Option.some_bind] at h
          have hnext2 : s.next ≤ s2.next := Nat.le_trans hfg1.2.1 hfg2.2.1
          have halt2 : p.1 < s2.next := Nat.lt_of_lt_of_le halt hfg2.2.1
          obtain ⟨hfg3, ro2, hro2, o3, hlo3, hpres2⟩ :=
            mergeJsonFieldH_spec hnext2 ha halt2 hm2
          have hoeq2 : o2 = ro2 := by
            rw [hlo2] at hro2
            exact Option.some.inj hro2
          have hqs3 : ∀ o m, lookupH s3.heap p.1 = some o →
              getK o "qs" = HVal.ref m → s.next ≤ m := by
            intro o m hlo hq
            rw [hlo3] at hlo
            rw [← Option.some.inj hlo] at hq
            rw [hpres2 "qs" (by decide)] at hq
            rw [← hoeq2] at hq
            exact hq2 m hq
          exact frameGe_trans hfg1 (frameGe_trans hfg2 (frameGe_trans hfg3
            (sendMessageH_frame ha hqs3 h)))

/-- Reading back the options object after the three `getUserProfile` writes
(URL and method on the object, `fields` on its distinct `qs` child). -/
theorem lookupH_three_writes {hp : Heap} {a q : Nat} {os : HObj}
    {k1 k2 k3 : String} {v1 v2 v3 : HVal} (hne : a ≠ q)
    (hlo : lookupH hp a = some os) :
    lookupH (setFieldH (setFieldH (setFieldH hp a k1 v1) q k2 v2) a k3 v3) a =
      some (setK (setK os k1 v1) k3 v3) := by
  rw [lookupH_setFieldH_eq, lookupH_setFieldH_ne hne, lookupH_setFieldH_eq, hlo]
  rfl

/-- Three field writes at addresses at or above `n` frame everything
below `n`. -/
theorem frameGe_three_writes {n : Nat} {s : UtilsState} {a q : Nat}
    {k1 k2 k3 : String} {v1 v2 v3 : HVal} (ha : n ≤ a) (hq : n ≤ q) :
    FrameGe n s ⟨setFieldH (setFieldH (setFieldH s.heap a k1 v1) q k2 v2)
      a k3 v3, s.next, s.base⟩ := by
  refine ⟨rfl, Nat.le_refl _, ?_, ?_⟩
  · intro b hb
    rw [lookupH_setFieldH_ne (by omega), lookupH_setFieldH_ne (by omega),
      lookupH_setFieldH_ne (by omega)]
  · intro hd
    exact domLt_setFieldH (domLt_setFieldH (domLt_setFieldH hd))

/-- Frame property of the heap effect of `getUserProfile`: nothing allocated
before the call is written. -/
theorem getUserProfileH_frame {s : UtilsState} {id : String}
    {fieldsArray : Option (List String)} {rd : RequestData} {s' : UtilsState}
    (hd : domLt s.heap s.next)
    (h : getUserProfileH s id fieldsArray rd = some s') :
    FrameGe s.next s s' := by
  unfold getUserProfileH at h
  cases hg : getRequestOptionsH s with
  | none => rw [hg] at h; cases h
  | some rs0 =>
    rw [hg, Option.some_bind] at h
    obtain ⟨hfg1, a0, os, hr, ha0, ha0lt, hlo, hrf⟩ :=
      getRequestOptionsH_spec hd hg
    rw [hr] at h
    dsimp only at h
    rw [hlo, Option.some_bind] at h
    split at h
    · rename_i u hu
      split at h
      · rename_i qaddr hq
        have hqb := hrf _ (mem_of_getK hq (fun hcon => HVal.noConfusion hcon))
          qaddr rfl
        have hne : a0 ≠ qaddr := by omega
        refine frameGe_trans hfg1 (frameGe_trans
          (frameGe_three_writes ha0 hqb.1) (sendMessageH_frame ha0 ?_ h))
        intro o m hlo' hq'
        rw [lookupH_three_writes hne hlo] at hlo'
        rw [← Option.some.inj hlo'] at hq'
        rw [getK_setK_ne (by decide), getK_setK_ne (by decide)] at hq'
        rw [hq] at hq'
        have : qaddr = m := by
          injection hq'
        omega
      · cases h
    · cases h

/-- A fresh allocation keeps the heap bounded by the new counter. -/
theorem domLt_alloc {s : UtilsState} (o : HObj) (hd : domLt s.heap s.next) :
    domLt (allocH s o).2.heap (allocH s o).2.next := by
  rw [allocH_heap, allocH_next]
  exact domLt_append_single _ (domLt_mono hd (Nat.le_succ _))
    (Nat.lt_succ_self _)

/-- Prefixing a call with one fresh allocation preserves its frame. -/
theorem frameGe_alloc_then {s s' : UtilsState} (o : HObj)
    (hf : FrameGe (allocH s o).2.next (allocH s o).2 s') :
    FrameGe s.next s s' :=
  frameGe_trans (frameGe_allocH o (Nat.le_refl _))
    (frameGe_mono (by rw [allocH_next]; omega) hf)

/-- Frame property of the heap effect of `sendAttachmentMessage`. -/
theorem sendAttachmentMessageH_frame {s : UtilsState} {id : String}
    {payload : HVal} {tag : Option MessageTag} {rd : RequestData}
    {s' : UtilsState} (hd : domLt s.heap s.next)
    (h : sendAttachmentMessageH s id payload tag rd = some s') :
    FrameGe s.next s s' := by
  unfold sendAttachmentMessageH at h
  exact frameGe_alloc_then _ (sendDisplayMessageH_frame (domLt_alloc _ hd) h)

/-- Frame property of the heap effect of `sendUrlOrIdBasedMessage`. -/
theorem sendUrlOrIdBasedMessageH_frame {s : UtilsState} {id : String}
    {type : ATTACHMENT_TYPE} {urlOrId : String} {tag : Option MessageTag}
    {rd : RequestData} {s' : UtilsState} (hd : domLt s.heap s.next)
    (h : sendUrlOrIdBasedMessageH s id type urlOrId tag rd = some s') :
    FrameGe s.next s s' := by
  unfold sendUrlOrIdBasedMessageH at h
  exact frameGe_alloc_then _ (frameGe_alloc_then _
    (sendAttachmentMessageH_frame (domLt_alloc _ (domLt_alloc _ hd)) h))

/-- Frame property of a single public client call: nothing allocated before
the call — the static base options in particular — is ever written. -/
theorem stepOp_frame {rd : RequestData} {op : ClientOp} {s s' : UtilsState}
    (hd : domLt s.heap s.next) (h : stepOp rd op s = some s') :
    FrameGe s.next s s' := by
  cases op with
  | markSeen id => exact sendActionH_frame hd h
  | toggleTyping id toggle cbPresent =>
    simp only [stepOp] at h
    repeat' split at h
    all_goals exact sendActionH_frame hd h
  | sendText id text tag =>
    simp only [stepOp] at h
    exact frameGe_alloc_then _ (sendDisplayMessageH_frame (domLt_alloc _ hd) h)
  | sendImage id urlOrId tag =>
    exact sendUrlOrIdBasedMessageH_frame hd h
  | sendAudio id urlOrId tag =>
    exact sendUrlOrIdBasedMessageH_frame hd h
  | sendVideo id urlOrId tag =>
    exact sendUrlOrIdBasedMessageH_frame hd h
  | sendFile id urlOrId tag =>
    exact sendUrlOrIdBasedMessageH_frame hd h
  | sendButtons id text buttons tag =>
    simp only [stepOp] at h
    exact frameGe_alloc_then _ (frameGe_alloc_then _
      (sendAttachmentMessageH_frame (domLt_alloc _ (domLt_alloc _ hd)) h))
  | sendTemplate id tpl tag =>
    simp only [stepOp] at h
    exact frameGe_alloc_then _
      (sendAttachmentMessageH_frame (domLt_alloc _ hd) h)
  | sendQuickReply id toa qrs tag =>
    simp only [stepOp] at h
    exact frameGe_alloc_then _ (sendDisplayMessageH_frame (domLt_alloc _ hd) h)
  | getUserProfile id fieldsArray => exact getUserProfileH_frame hd h

/-- Frame property of any sequence of public client calls. -/
theorem stepOps_frame : ∀ (calls : List (RequestData × ClientOp))
    (s s' : UtilsState), domLt s.heap s.next → stepOps calls s = some s' →
    FrameGe s.next s s' := by
  intro calls
  induction calls with
  | nil =>
    intro s s' hd h
    injection h with h'
    rw [← h']
    exact frameGe_refl _ _
  | cons c rest ih =>
    intro s s' hd h
    rw [stepOps] at h
    cases hc : stepOp c.1 c.2 s with
    | none => rw [hc] at h; cases h
    | some s1 =>
      rw [hc, Option.some_bind] at h
      have f1 := stepOp_frame hd hc
      have hd1 : domLt s1.heap s1.next := f1.2.2.2 hd
      have f2 := ih s1 s' hd1 h
      exact frameGe_trans f1 (frameGe_mono f1.2.1 f2)

/-- C9. No message-sending or profile-fetching client call ever mutates the
shared static base options: after any sequence of such calls the base options
object and its `qs` child read back exactly as before — in particular the
stored `access_token` is still `undefined`, so no call's token is observable
by another. Only `setAPIVersion` writes to the shared state, and it changes
nothing but the `url` field of the base options object. -/
theorem c9_shared_state_frame : ∀ (s : UtilsState) (u : String) (qaddr : Nat),
    WFat s u qaddr →
    (∀ (calls : List (RequestData × ClientOp)) (s' : UtilsState),
      stepOps calls s = some s' →
      lookupH s'.heap s.base =
        some [("url", HVal.str u), ("qs", HVal.ref qaddr),
          ("method", HVal.undef)] ∧
      lookupH s'.heap qaddr = some [("access_token", HVal.undef)]) ∧
    (∀ v : String,
      lookupH (setAPIVersionH v s).heap s.base =
        some [("url", HVal.str (apiUrl v)), ("qs", HVal.ref qaddr),
          ("method", HVal.undef)] ∧
      lookupH (setAPIVersionH v s).heap qaddr =
        some [("access_token", HVal.undef)] ∧
      (∀ b, b ≠ s.base →
        lookupH (setAPIVersionH v s).heap b = lookupH s.heap b)) := by
  intro s u qaddr hwf
  obtain ⟨hbase, hqs, hne, hblt, hqlt, hdom⟩ := hwf
  constructor
  · intro calls s' hstep
    have hf := stepOps_frame calls s s' hdom hstep
    constructor
    · rw [hf.2.2.1 s.base hblt, hbase]
    · rw [hf.2.2.1 qaddr hqlt, hqs]
  · intro v
    refine ⟨?_, ?_, ?_⟩
    · unfold setAPIVersionH
      dsimp only
      rw [lookupH_setFieldH_eq, hbase]
      rfl
    · unfold setAPIVersionH
      dsimp only
      rw [lookupH_setFieldH_ne (Ne.symm hne)]
      exact hqs
    · intro b hb
      unfold setAPIVersionH
      dsimp only
      exact lookupH_setFieldH_ne hb

/-- C9, witness: the frame theorem evaluated on the initial `Utils` state, one
concrete `sendTextMessage` call, and one concrete `setAPIVersion` call. -/
theorem c9_shared_state_frame_witness :
    WFat initState "https://graph.facebook.com/v3.1/" 1 ∧
    stepOps [(⟨"tok", none⟩, ClientOp.sendText "u" "hi" none)] initState =
      some ⟨[(0, [("url", HVal.str "https://graph.facebook.com/v3.1/"),
          ("qs", HVal.ref 1), ("method", HVal.undef)]),
        (1, [("access_token", HVal.undef)]),
        (2, [("text", HVal.str "hi")]),
        (3, [("access_token", HVal.str "tok")]),
        (4, [("url", HVal.str "https://graph.facebook.com/v3.1/me/messages"),
          ("qs", HVal.ref 3), ("method", HVal.str "POST"),
          ("json", HVal.ref 7)]),
        (5, [("id", HVal.str "u")]),
        (6, [("recipient", HVal.ref 5)]),
        (7, [("recipient", HVal.ref 5), ("message", HVal.ref 2)])], 8, 0⟩ ∧
    lookupH (⟨[(0, [("url", HVal.str "https://graph.facebook.com/v3.1/"),
          ("qs", HVal.ref 1), ("method", HVal.undef)]),
        (1, [("access_token", HVal.undef)]),
        (2, [("text", HVal.str "hi")]),
        (3, [("access_token", HVal.str "tok")]),
        (4, [("url", HVal.str "https://graph.facebook.com/v3.1/me/messages"),
          ("qs", HVal.ref 3), ("method", HVal.str "POST"),
          ("json", HVal.ref 7)]),
        (5, [("id", HVal.str "u")]),
        (6, [("recipient", HVal.ref 5)]),
        (7, [("recipient", HVal.ref 5), ("message", HVal.ref 2)])], 8, 0⟩
        : UtilsState).heap 0 =
      some [("url", HVal.str "https://graph.facebook.com/v3.1/"),
        ("qs", HVal.ref 1), ("method", HVal.undef)] ∧
    lookupH (setAPIVersionH "4.0" initState).heap 0 =
      some [("url", HVal.str "https://graph.facebook.com/v4.0/"),
        ("qs", HVal.ref 1), ("method", HVal.undef)] := by
  have hwf : WFat initState "https://graph.facebook.com/v3.1/" 1 := by
    refine ⟨rfl, rfl, by decide, by decide, by decide, ?_⟩
    unfold domLt initState
    decide
  refine ⟨hwf, by decide, ?_, ?_⟩
  · exact (((c9_shared_state_frame initState "https://graph.facebook.com/v3.1/"
      1 hwf).1 [(⟨"tok", none⟩, ClientOp.sendText "u" "hi" none)] _)
        (by decide)).1
  · exact ((c9_shared_state_frame initState "https://graph.facebook.com/v3.1/"
      1 hwf).2 "4.0").1

/-- Exact result of `Utils.getRequestOptions` on a well-formed state: the
`JSON.parse(JSON.stringify(...))` round trip allocates a fresh empty `qs`
object (the stored `access_token: undefined` is dropped by `JSON.stringify`,
as is the `method` field) and a fresh root carrying the current URL and a
reference to that fresh `qs` object. -/
theorem getRequestOptionsH_eq {s : UtilsState} {u : String} {qaddr : Nat}
    (hwf : WFat s u qaddr) :
    getRequestOptionsH s = some (HVal.ref (s.next + 1),
      ⟨s.heap ++ [(s.next, [])] ++ [(s.next + 1,
        [("url", HVal.str u), ("qs", HVal.ref s.next)])],
        s.next + 2, s.base⟩) := by
  obtain ⟨hbase, hqs, hne, hblt, hqlt, hdom⟩ := hwf
  unfold getRequestOptionsH
  rw [hbase, Option.some_bind]
  have hflat : copyFlat [("access_token", HVal.undef)] = some [] := rfl
  have hcf : copyFieldsH s
      [("url", HVal.str u), ("qs", HVal.ref qaddr), ("method", HVal.undef)] =
      some ([("url", HVal.str u), ("qs", HVal.ref s.next)],
        ⟨s.heap ++ [(s.next, [])], s.next + 1, s.base⟩) := by
    rw [copyFieldsH, copyFieldsH, hqs, Option.some_bind, hflat,
      Option.some_bind]
    dsimp only
    rw [copyFieldsH, copyFieldsH, Option.map_some', Option.map_some']
    rfl
  rw [hcf, Option.map_some']
  rfl

/-- The state after one `getRequestOptions` copy is well-formed again, with
the same base options content. -/
theorem WFat_copyState {s : UtilsState} {u : String} {qaddr : Nat}
    (hwf : WFat s u qaddr) :
    WFat ⟨s.heap ++ [(s.next, [])] ++ [(s.next + 1,
      [("url", HVal.str u), ("qs", HVal.ref s.next)])],
      s.next + 2, s.base⟩ u qaddr := by
  obtain ⟨hbase, hqs, hne, hblt, hqlt, hdom⟩ := hwf
  refine ⟨?_, ?_, hne, ?_, ?_, ?_⟩
  · dsimp only
    rw [lookupH_append_single _ (by omega), lookupH_append_single _ (by omega)]
    exact hbase
  · dsimp only
    rw [lookupH_append_single _ (by omega), lookupH_append_single _ (by omega)]
    exact hqs
  · dsimp only
    omega
  · dsimp only
    omega
  · dsimp only
    refine domLt_append_single _ (domLt_append_single _
      (domLt_mono hdom (by omega)) (by omega)) (by omega)

/-- C5. Each `getRequestOptions()` call returns a deep copy of the current
base options living entirely at fresh addresses: two successive calls yield
copies at pairwise distinct addresses carrying the current base URL, and a
field write anywhere in one copy changes neither the base options and its
`qs` child nor any object of the other copy. -/
theorem c5_deep_copy_independence : ∀ (s : UtilsState) (u : String)
    (qaddr : Nat), WFat s u qaddr →
    getRequestOptionsH s = some (HVal.ref (s.next + 1),
      ⟨s.heap ++ [(s.next, [])] ++ [(s.next + 1,
        [("url", HVal.str u), ("qs", HVal.ref s.next)])],
        s.next + 2, s.base⟩) ∧
    getRequestOptionsH ⟨s.heap ++ [(s.next, [])] ++ [(s.next + 1,
        [("url", HVal.str u), ("qs", HVal.ref s.next)])],
        s.next + 2, s.base⟩ =
      some (HVal.ref (s.next + 3),
        ⟨s.heap ++ [(s.next, [])] ++ [(s.next + 1,
          [("url", HVal.str u), ("qs", HVal.ref s.next)])] ++
          [(s.next + 2, [])] ++ [(s.next + 3,
          [("url", HVal.str u), ("qs", HVal.ref (s.next + 2))])],
          s.next + 4, s.base⟩) ∧
    (∀ a k v, a = s.next ∨ a = s.next + 1 →
      ∀ b, b = s.base ∨ b = qaddr ∨ b = s.next + 2 ∨ b = s.next + 3 →
        lookupH (setFieldH (s.heap ++ [(s.next, [])] ++ [(s.next + 1,
          [("url", HVal.str u), ("qs", HVal.ref s.next)])] ++
          [(s.next + 2, [])] ++ [(s.next + 3,
          [("url", HVal.str u), ("qs", HVal.ref (s.next + 2))])]) a k v) b =
        lookupH (s.heap ++ [(s.next, [])] ++ [(s.next + 1,
          [("url", HVal.str u), ("qs", HVal.ref s.next)])] ++
          [(s.next + 2, [])] ++ [(s.next + 3,
          [("url", HVal.str u), ("qs", HVal.ref (s.next + 2))])]) b) ∧
    (∀ a k v, a = s.next + 2 ∨ a = s.next + 3 →
      ∀ b, b = s.base ∨ b = qaddr ∨ b = s.next ∨ b = s.next + 1 →
        lookupH (setFieldH (s.heap ++ [(s.next, [])] ++ [(s.next + 1,
          [("url", HVal.str u), ("qs", HVal.ref s.next)])] ++
          [(s.next + 2, [])] ++ [(s.next + 3,
          [("url", HVal.str u), ("qs", HVal.ref (s.next + 2))])]) a k v) b =
        lookupH (s.heap ++ [(s.next, [])] ++ [(s.next + 1,
          [("url", HVal.str u), ("qs", HVal.ref s.next)])] ++
          [(s.next + 2, [])] ++ [(s.next + 3,
          [("url", HVal.str u), ("qs", HVal.ref (s.next + 2))])]) b) := by
  intro s u qaddr hwf
  have h1 := getRequestOptionsH_eq hwf
  have hwf1 := WFat_copyState hwf
  have h2 := getRequestOptionsH_eq hwf1
  obtain ⟨hbase, hqs, hne, hblt, hqlt, hdom⟩ := hwf
  refine ⟨h1, h2, ?_, ?_⟩
  · intro a k v hav b hb
    rcases hav with rfl | rfl <;> rcases hb with rfl | rfl | rfl | rfl <;>
      exact lookupH_setFieldH_ne (by omega)
  · intro a k v hav b hb
    rcases hav with rfl | rfl <;> rcases hb with rfl | rfl | rfl | rfl <;>
      exact lookupH_setFieldH_ne (by omega)

/-- C5, witness: both copies and a concrete cross-copy frame instance
evaluated on the initial `Utils` state. -/
theorem c5_deep_copy_independence_witness :
    WFat initState "https://graph.facebook.com/v3.1/" 1 ∧
    getRequestOptionsH initState =
      some (HVal.ref 3, ⟨initState.heap ++ [(2, [])] ++
        [(3, [("url", HVal.str "https://graph.facebook.com/v3.1/"),
          ("qs", HVal.ref 2)])], 4, 0⟩) ∧
    lookupH (setFieldH (initState.heap ++ [(2, [])] ++
        [(3, [("url", HVal.str "https://graph.facebook.com/v3.1/"),
          ("qs", HVal.ref 2)])] ++ [(4, [])] ++
        [(5, [("url", HVal.str "https://graph.facebook.com/v3.1/"),
          ("qs", HVal.ref 4)])]) 2 "access_token" (HVal.str "tok")) 0 =
      lookupH (initState.heap ++ [(2, [])] ++
        [(3, [("url", HVal.str "https://graph.facebook.com/v3.1/"),
          ("qs", HVal.ref 2)])] ++ [(4, [])] ++
        [(5, [("url", HVal.str "https://graph.facebook.com/v3.1/"),
          ("qs", HVal.ref 4)])]) 0 := by
  have hwf : WFat initState "https://graph.facebook.com/v3.1/" 1 := by
    refine ⟨rfl, rfl, by decide, by decide, by decide, ?_⟩
    unfold domLt initState
    decide
  have hc := c5_deep_copy_independence initState
    "https://graph.facebook.com/v3.1/" 1 hwf
  exact ⟨hwf, hc.1, hc.2.2.1 2 "access_token" (HVal.str "tok") (Or.inl rfl)
    0 (Or.inl rfl)⟩
